import Mathlib

/-!
Verification of the analytical core of the `web-analizer-ecostms` dashboard:
the monthly aggregation engine (grouping dated percentage records by calendar
month, averaging, trend signals) and the polygon geometry converter
(WKT parsing/serialization, centroid).

Modelling conventions:
* JavaScript numbers are modelled as exact rationals (`ℚ`); every numeric
  literal appearing in the data of interest is a decimal, hence exactly
  representable.
* `capture_date` strings are abstracted to the `(getFullYear(), getMonth()+1)`
  pair that the grouping code extracts from them via `new Date(...)`; the
  grouping key string `` `${year}-${month padded to 2}` `` is modelled by the
  pair itself, whose lexicographic order coincides with the JS default
  (lexicographic) string sort on the zero-padded keys for ISO four-digit years.
* The locale-dependent `monthName` / `shortName` display labels (produced by
  `toLocaleDateString('es-ES', ...)`) are display-only and are dropped from
  the model; no verified claim mentions them.
* `null` percentage fields are modelled by `Option ℚ`; the code's `x || 0`
  coercion is `Option.getD 0`.
-/

namespace WebAnalizer

/-- JS `Number(x.toFixed(2))`: rounding to 2 decimal places.  Per the
`toFixed` spec the chosen integer numerator is the one closest to the exact
value, ties picking the larger, i.e. `⌊x·100 + 1/2⌋`, which is Mathlib's
`round`. -/
def round2 (q : ℚ) : ℚ := (round (q * 100) : ℤ) / 100

/-- The `(date.getFullYear(), date.getMonth() + 1)` pair extracted from a
`capture_date` string by the grouping code. -/
structure CaptureDate where
  year : Nat
  month : Nat
deriving DecidableEq, Repr

/-- The fields of a `HistoricalImage` record that the aggregation core reads.
`vegetation_percentage` / `water_percentage` may be `null` (`none`). -/
structure HistoricalImage where
  capture_date : CaptureDate
  vegetation_percentage : Option ℚ
  water_percentage : Option ℚ
deriving DecidableEq, Repr

/-- The `` `${date.getFullYear()}-${String(date.getMonth()+1).padStart(2,'0')}` ``
grouping key, modelled as the (year, month) pair (see header comment). -/
def monthKeyOf (d : CaptureDate) : Nat × Nat := (d.year, d.month)

/-- One insertion step of `groups[monthKey].push(...)` on a JS plain object:
string keys keep insertion order, so the object is an insertion-ordered
association list; a new key is appended at the end, an existing key has the
record appended to its list. -/
def insertGroup (gs : List ((Nat × Nat) × List HistoricalImage)) (k : Nat × Nat)
    (img : HistoricalImage) : List ((Nat × Nat) × List HistoricalImage) :=
  match gs with
  | [] => [(k, [img])]
  | (k', imgs) :: rest =>
    if k' = k then (k', imgs ++ [img]) :: rest
    else (k', imgs) :: insertGroup rest k img

/-- `groupByMonth`: fold over `images.forEach(...)` building the
insertion-ordered month groups. -/
def groupByMonth (images : List HistoricalImage) :
    List ((Nat × Nat) × List HistoricalImage) :=
  images.foldl (fun gs img => insertGroup gs (monthKeyOf img.capture_date) img) []

/-- Lexicographic order on month keys: the order realised by the JS default
string sort on the zero-padded `YYYY-MM` key strings. -/
def keyLe (a b : Nat × Nat) : Prop := a.1 < b.1 ∨ (a.1 = b.1 ∧ a.2 ≤ b.2)

/-- Strict version of `keyLe`. -/
def keyLt (a b : Nat × Nat) : Prop := a.1 < b.1 ∨ (a.1 = b.1 ∧ a.2 < b.2)

instance : DecidableRel keyLe := fun _ _ => by unfold keyLe; infer_instance

instance : DecidableRel keyLt := fun _ _ => by unfold keyLt; infer_instance

instance : IsTotal (Nat × Nat) keyLe where
  total a b := by
    rcases Nat.lt_trichotomy a.1 b.1 with h | h | h
    · exact Or.inl (Or.inl h)
    · rcases Nat.le_total a.2 b.2 with h2 | h2
      · exact Or.inl (Or.inr ⟨h, h2⟩)
      · exact Or.inr (Or.inr ⟨h.symm, h2⟩)
    · exact Or.inr (Or.inl h)

instance : IsTrans (Nat × Nat) keyLe where
  trans a b c hab hbc := by
    rcases hab with h | ⟨he, h2⟩
    · rcases hbc with h' | ⟨he', _⟩
      · exact Or.inl (h.trans h')
      · exact Or.inl (he' ▸ h)
    · rcases hbc with h' | ⟨he', h2'⟩
      · exact Or.inl (he ▸ h')
      · exact Or.inr ⟨he.trans he', h2.trans h2'⟩

instance : IsAntisymm (Nat × Nat) keyLe where
  antisymm a b hab hba := by
    rcases hab with h | ⟨he, h2⟩
    · rcases hba with h' | ⟨he', _⟩
      · exact absurd (h.trans h') (lt_irrefl _)
      · exact absurd h (he' ▸ lt_irrefl _)
    · rcases hba with h' | ⟨he', h2'⟩
      · exact absurd h' (he ▸ lt_irrefl _)
      · exact Prod.ext he (le_antisymm h2 h2')

/-- `Object.keys(monthlyGroups).sort().reverse()`: ascending key sort then
reversal, giving descending (most recent first) keys. -/
def sortedMonths (gs : List ((Nat × Nat) × List HistoricalImage)) :
    List (Nat × Nat) :=
  (List.insertionSort keyLe (gs.map Prod.fst)).reverse

/-- `monthlyGroups[monthKey]`: lookup in the association list. -/
def lookupGroup (gs : List ((Nat × Nat) × List HistoricalImage))
    (k : Nat × Nat) : List HistoricalImage :=
  match gs with
  | [] => []
  | (k', imgs) :: rest => if k' = k then imgs else lookupGroup rest k

/-- One output bucket of the monthly aggregation (the locale display name is
dropped, see header comment). -/
structure MonthBucket where
  monthKey : Nat × Nat
  avgVegetation : ℚ
  avgWater : ℚ
  count : Nat
deriving DecidableEq, Repr

/-- The `'up' | 'down' | 'stable'` trend strings. -/
inductive Trend
  | up
  | down
  | stable
deriving DecidableEq, Repr

/-- `a > b ? 'up' : a < b ? 'down' : 'stable'`. -/
def cmpTrend (a b : ℚ) : Trend :=
  if a > b then .up else if a < b then .down else .stable

/- Copy of the aggregation/trend logic in
`src/components/AnalysisHistoryModal.tsx`. -/
namespace Modal

/-- `monthlyAverages` of `src/components/AnalysisHistoryModal.tsx`
(lines 32-70): group by month, sort keys ascending then reverse, and map
each key to its averages bucket. -/
def monthlyAverages (historicalImages : List HistoricalImage) :
    List MonthBucket :=
  let monthlyGroups := groupByMonth historicalImages
  (sortedMonths monthlyGroups).map fun mk =>
    let monthData := lookupGroup monthlyGroups mk
    let avgVegetation :=
      (monthData.foldl (fun s img => s + img.vegetation_percentage.getD 0) 0) /
        (monthData.length : ℚ)
    let avgWater :=
      (monthData.foldl (fun s img => s + img.water_percentage.getD 0) 0) /
        (monthData.length : ℚ)
    { monthKey := mk
      avgVegetation := round2 avgVegetation
      avgWater := round2 avgWater
      count := monthData.length }

/-- `trends` of `src/components/AnalysisHistoryModal.tsx` (lines 74-89):
`last = monthlyAverages[0]`, `first = monthlyAverages[length-1]`, compare
`last` against `first`. -/
def trends (monthlyAverages : List MonthBucket) : Trend × Trend :=
  if monthlyAverages.length < 2 then (.stable, .stable)
  else
    match monthlyAverages.head?, monthlyAverages.getLast? with
    | some lastB, some firstB =>
      (cmpTrend lastB.avgVegetation firstB.avgVegetation,
       cmpTrend lastB.avgWater firstB.avgWater)
    | _, _ => (.stable, .stable)

end Modal

/- Copy of the aggregation/trend logic in the `AnalysisHistoryModal`
embedded in the map component source file (`src/unnamed/part_000`). -/
namespace MapModal

/-- `monthlyAverages` of `src/unnamed/part_000` (lines 137-176); identical to
the other copy except for the extra locale-derived `shortName` display field,
which the model drops. -/
def monthlyAverages (historicalImages : List HistoricalImage) :
    List MonthBucket :=
  let monthlyGroups := groupByMonth historicalImages
  (sortedMonths monthlyGroups).map fun mk =>
    let monthData := lookupGroup monthlyGroups mk
    let avgVegetation :=
      (monthData.foldl (fun s img => s + img.vegetation_percentage.getD 0) 0) /
        (monthData.length : ℚ)
    let avgWater :=
      (monthData.foldl (fun s img => s + img.water_percentage.getD 0) 0) /
        (monthData.length : ℚ)
    { monthKey := mk
      avgVegetation := round2 avgVegetation
      avgWater := round2 avgWater
      count := monthData.length }

/-- `trends` of `src/unnamed/part_000` (lines 178-193):
`first = monthlyAverages[length-1]`, `last = monthlyAverages[0]`, compare
`last` against `first` — the two `const` declarations appear in the opposite
textual order to the other copy, but bind the same indices. -/
def trends (monthlyAverages : List MonthBucket) : Trend × Trend :=
  if monthlyAverages.length < 2 then (.stable, .stable)
  else
    match monthlyAverages.head?, monthlyAverages.getLast? with
    | some lastB, some firstB =>
      (cmpTrend lastB.avgVegetation firstB.avgVegetation,
       cmpTrend lastB.avgWater firstB.avgWater)
    | _, _ => (.stable, .stable)

end MapModal

/-! Basic lemmas about the grouping structure. -/

/-- The key of an image, as used by the grouping fold. -/
def imgKey (img : HistoricalImage) : Nat × Nat := monthKeyOf img.capture_date

/-!
Geometry converter model (`src/unnamed/part_000`, lines 827-880).

The WKT parser is a character-level embedding of

```
const cleanWkt = wkt.toUpperCase().replace(/SRID=\d+;/, "")
const match = cleanWkt.match(/POLYGON\s*\(\((.*?)\)\)/)
coordsString.split(",").map(pair => { const [lng, lat] = pair.trim()
  .split(/\s+/).map(Number); if (isNaN(lat) || isNaN(lng)) throw ...;
  return [lat, lng] })
```

with JS regex semantics spelled out: leftmost match, greedy `\s*` and `\d+`
(backtracking is vacuous here because the characters that may follow are
never in the preceding class), non-greedy `(.*?)` (shortest extension after
which `))` matches, `.` excluding line terminators).  `Number(tok)` is
modelled for the reachable tokens — every token has been upper-cased and
contains no whitespace — as `jsNum?`, `none` standing for NaN; the
case-sensitive lowercase spellings (`Infinity`, `0x…`/`0o…`/`0b…` with
lowercase markers, lowercase exponent `e`, lowercase hex digits) cannot
survive `toUpperCase()` and are therefore not modelled.  `toUpperCase` /
`trim` / `\s` are modelled on their ASCII behaviour (`Char.toUpper`,
`Char.isWhitespace`).
-/

/-- JS `toUpperCase()` (ASCII mapping). -/
def jsToUpper (cs : List Char) : List Char := cs.map Char.toUpper

/-- If `cs` starts with the literal `pre`, the remainder after it. -/
def dropPrefixChars : List Char → List Char → Option (List Char)
  | [], cs => some cs
  | _ :: _, [] => none
  | p :: ps, c :: cs => if c = p then dropPrefixChars ps cs else none

/-- Length of the match of `/SRID=\d+;/` anchored at `cs`, if any: the
literal `SRID=`, one or more digits (greedily), then `;`. -/
def sridMatchLen (cs : List Char) : Option Nat :=
  match dropPrefixChars ['S', 'R', 'I', 'D', '='] cs with
  | none => none
  | some rest =>
    let ds := rest.takeWhile Char.isDigit
    if (rest.drop ds.length).head? = some ';' then
      if ds.isEmpty then none else some (5 + ds.length + 1)
    else none

/-- `.replace(/SRID=\d+;/, "")`: delete the leftmost match, if any. -/
def stripSRID : List Char → List Char
  | [] => []
  | c :: cs =>
    match sridMatchLen (c :: cs) with
    | some n => (c :: cs).drop n
    | none => c :: stripSRID cs

/-- Can `.` match this character (anything but a line terminator)? -/
def dotMatches (c : Char) : Bool :=
  !(c == '\n' || c == '\r' || c == ' ' || c == ' ')

/-- The non-greedy capture `(.*?)` before the literal `))`: at each position
the regex first tries the `))` continuation, else lets `.` consume one
character. -/
def captureUntilParens : List Char → Option (List Char)
  | [] => none
  | c :: cs =>
    if c = ')' ∧ cs.head? = some ')' then some []
    else if dotMatches c then (captureUntilParens cs).map (c :: ·) else none

/-- A match of `/POLYGON\s*\(\((.*?)\)\)/` anchored at `cs`: the capture
group.  `\s*` is greedy; since `(` is not in `\s`, backtracking never
helps. -/
def polygonMatchAt (cs : List Char) : Option (List Char) :=
  match dropPrefixChars ['P', 'O', 'L', 'Y', 'G', 'O', 'N'] cs with
  | none => none
  | some rest =>
    let r := rest.dropWhile Char.isWhitespace
    if r.head? = some '(' ∧ r.tail.head? = some '(' then
      captureUntilParens r.tail.tail
    else none

/-- Leftmost match of the POLYGON pattern: try each start position left to
right. -/
def polygonMatch : List Char → Option (List Char)
  | [] => none
  | c :: cs => (polygonMatchAt (c :: cs)).orElse fun _ => polygonMatch cs

/-- JS `split(",")`: split at every comma, keeping empty fields. -/
def splitOnComma : List Char → List (List Char)
  | [] => [[]]
  | c :: cs =>
    if c = ',' then [] :: splitOnComma cs
    else
      match splitOnComma cs with
      | [] => [[c]]
      | t :: ts => (c :: t) :: ts

/-- JS `trim()` (ASCII whitespace). -/
def jsTrim (cs : List Char) : List Char :=
  ((cs.dropWhile Char.isWhitespace).reverse.dropWhile Char.isWhitespace).reverse

/-- JS `split(/\s+/)`: split at maximal whitespace runs (a leading run
produces a leading empty field and a trailing run a trailing one, as in JS).
The state is `some acc` while accumulating a field, `none` while inside a
whitespace run. -/
def splitWsAux : Option (List Char) → List Char → List (List Char)
  | none, [] => [[]]
  | some acc, [] => [acc.reverse]
  | none, c :: cs =>
    if c.isWhitespace then splitWsAux none cs else splitWsAux (some [c]) cs
  | some acc, c :: cs =>
    if c.isWhitespace then acc.reverse :: splitWsAux none cs
    else splitWsAux (some (c :: acc)) cs

def splitWs (cs : List Char) : List (List Char) := splitWsAux (some []) cs

/-- Value of decimal digit characters, most significant first. -/
def digitsVal (ds : List Char) : Nat :=
  ds.foldl (fun a c => 10 * a + (c.toNat - 48)) 0

/-- Value of a hexadecimal digit (uppercase; see header comment). -/
def hexVal (c : Char) : Option Nat :=
  if c.isDigit then some (c.toNat - 48)
  else if 'A' ≤ c ∧ c ≤ 'F' then some (c.toNat - 55)
  else none

def octVal (c : Char) : Option Nat :=
  if '0' ≤ c ∧ c ≤ '7' then some (c.toNat - 48) else none

def binVal (c : Char) : Option Nat :=
  if c = '0' ∨ c = '1' then some (c.toNat - 48) else none

/-- A radix-prefixed integer literal body: one or more digits of the
radix. -/
def parseRadix (radix : Nat) (dv : Char → Option Nat) (cs : List Char) :
    Option ℚ :=
  match cs with
  | [] => none
  | _ =>
    (cs.foldl (fun acc c => acc.bind fun a => (dv c).map fun d => radix * a + d)
      (some 0)).map fun n => (n : ℚ)

/-- The exponent digits (everything after the optional sign must be one or
more digits, consuming the whole remainder). -/
def expDigits (ds : List Char) : Option Int :=
  if ds.isEmpty ∨ ¬ ds.all Char.isDigit then none
  else some (digitsVal ds : Int)

/-- The optional exponent part: empty, or `E` with optional sign and
digits. -/
def parseExpPart : List Char → Option Int
  | [] => some 0
  | c :: rest =>
    if c = 'E' then
      if rest.head? = some '+' then expDigits rest.tail
      else if rest.head? = some '-' then (expDigits rest.tail).map Int.neg
      else expDigits rest
    else none

/-- `mantissa · 10 ^ (exp − fracLen)` as an exact rational. -/
def applyExp (mantissa : Nat) (fracLen : Nat) (e : Int) : ℚ :=
  (mantissa : ℚ) * 10 ^ (e - (fracLen : Int))

/-- An unsigned decimal literal `digits [. digits?] [exp]` or
`. digits [exp]`. -/
def parseDecimalBody (cs : List Char) : Option ℚ :=
  let intDs := cs.takeWhile Char.isDigit
  let rest1 := cs.drop intDs.length
  if rest1.head? = some '.' then
    let rest2 := rest1.tail
    let fracDs := rest2.takeWhile Char.isDigit
    let rest3 := rest2.drop fracDs.length
    if intDs.isEmpty ∧ fracDs.isEmpty then none
    else
      (parseExpPart rest3).map fun e =>
        applyExp (digitsVal (intDs ++ fracDs)) fracDs.length e
  else
    if intDs.isEmpty then none
    else (parseExpPart rest1).map fun e => applyExp (digitsVal intDs) 0 e

/-- JS `Number(tok)` on an upper-cased, whitespace-free token; `none` is NaN
(see header comment). -/
def jsNum? (cs : List Char) : Option ℚ :=
  match cs with
  | [] => some 0
  | c :: rest =>
    if c = '+' then parseDecimalBody rest
    else if c = '-' then (parseDecimalBody rest).map Neg.neg
    else if c = '0' ∧ rest.head? = some 'X' then parseRadix 16 hexVal rest.tail
    else if c = '0' ∧ rest.head? = some 'O' then parseRadix 8 octVal rest.tail
    else if c = '0' ∧ rest.head? = some 'B' then parseRadix 2 binVal rest.tail
    else parseDecimalBody (c :: rest)

/-- The parser's `map` callback on one comma field: trim, split on
whitespace runs, destructure the first two tokens as `[lng, lat]` (extra
tokens are ignored; a missing second token is `undefined`, whose `Number` is
NaN), throw if either is NaN, return `[lat, lng]`. -/
def parseCoordPair (pair : List Char) : Option (ℚ × ℚ) :=
  match splitWs (jsTrim pair) with
  | [] => none
  | lngTok :: restToks =>
    match jsNum? lngTok, (match restToks with
                          | [] => none
                          | latTok :: _ => jsNum? latTok) with
    | some lng, some lat => some (lat, lng)
    | _, _ => none

/-- `array.map(cb)` where the callback may `throw`, inside `try/catch`:
either every element maps or the whole computation fails. -/
def mapOrNone (f : α → Option β) : List α → Option (List β)
  | [] => some []
  | a :: l =>
    match f a with
    | none => none
    | some b => (mapOrNone f l).map (b :: ·)

/-- `parseWKTPolygon` (lines 827-853): uppercase, strip the SRID prefix,
take the non-greedy POLYGON capture (else `null`), split on commas and parse
every field; any NaN throws, caught to `null`. -/
def parseWKTPolygon (wkt : String) : Option (List (ℚ × ℚ)) :=
  let cleanWkt := stripSRID (jsToUpper wkt.toList)
  match polygonMatch cleanWkt with
  | none => none
  | some coordsString => mapOrNone parseCoordPair (splitOnComma coordsString)

/-- `getPolygonCenter` (lines 856-860): arithmetic mean of the latitudes and
of the longitudes.  The division is unguarded: on the empty list both
denominators are `0` (in JS `0/0` is NaN; in the exact-rational model the
division by zero is the 0-valued junk division). -/
def getPolygonCenter (coords : List (ℚ × ℚ)) : ℚ × ℚ :=
  let latSum := coords.foldl (fun sum coord => sum + coord.1) 0
  let lngSum := coords.foldl (fun sum coord => sum + coord.2) 0
  (latSum / (coords.length : ℚ), lngSum / (coords.length : ℚ))

/-! Number-to-string for the serializer.  JS prints every double as its
shortest round-tripping decimal; in the exact-rational model a number
reachable from JS always has a `2^a·5^b` denominator and is printed as its
exact (shortest) decimal expansion, without exponent notation.  The impossible
other case is rendered as an unparsable `num/den` token for totality. -/

/-- Multiplicity of `p` in `n` (fuel-based, fuel `n` suffices). -/
def multAux : Nat → Nat → Nat → Nat
  | 0, _, _ => 0
  | fuel + 1, p, n =>
    if 2 ≤ p ∧ n % p = 0 ∧ n ≠ 0 then multAux fuel p (n / p) + 1 else 0

def padMult (p n : Nat) : Nat := multAux n p n

/-- The least `k` with `d ∣ 10^k`, when `d` is `2^a·5^b`-shaped. -/
def decExp (d : Nat) : Option Nat :=
  let a := padMult 2 d
  let b := padMult 5 d
  if d = 2 ^ a * 5 ^ b then some (max a b) else none

/-- Decimal digit characters of `n`, most significant first (`"0"` for 0). -/
def natDigitChars (n : Nat) : List Char :=
  if n = 0 then ['0']
  else (Nat.digits 10 n).reverse.map fun d => Char.ofNat (48 + d)

/-- The digits of `n` left-padded with zeros to at least `k+1` digits. -/
def paddedDigits (n k : Nat) : List Char :=
  List.replicate (k + 1 - (natDigitChars n).length) '0' ++ natDigitChars n

/-- `n / 10^k` printed as a decimal literal: the digits of `n`, left-padded
with zeros to at least `k+1` digits, with the point inserted `k` places from
the right (no point when `k = 0`). -/
def renderDec (n k : Nat) : List Char :=
  if k = 0 then natDigitChars n
  else
    (paddedDigits n k).take ((paddedDigits n k).length - k) ++
      '.' :: (paddedDigits n k).drop ((paddedDigits n k).length - k)

/-- The JS number-to-string used by the template `` `${coord[0]} ${coord[1]}` ``
(see the section comment). -/
def ratToDecChars (q : ℚ) : List Char :=
  match decExp q.den with
  | some k =>
    (if q < 0 then ['-'] else []) ++
      renderDec (q.num.natAbs * (10 ^ k / q.den)) k
  | none =>
    (if q < 0 then ['-'] else []) ++
      natDigitChars q.num.natAbs ++ '/' :: natDigitChars q.den

/-! The GeoJSON-like input of `convertToWKT`.  `geometry` may be missing
(accessing `.type` on it throws, caught to `null`); `coordinates` may be
missing or empty (`coordinates[0]` is `undefined`, whose `.map` throws); a
missing `type` simply compares unequal to `"Polygon"` and is subsumed by a
non-matching string. -/

structure Geometry where
  type : String
  coordinates : Option (List (List (ℚ × ℚ)))

structure Feature where
  geometry : Option Geometry

structure GeoJson where
  features : Option (List Feature)

/-- `", "`-join of the `` `${coord[0]} ${coord[1]}` `` fields. -/
def joinCoords : List (ℚ × ℚ) → List Char
  | [] => []
  | [c] => ratToDecChars c.1 ++ ' ' :: ratToDecChars c.2
  | c :: cs => ratToDecChars c.1 ++ ' ' :: ratToDecChars c.2 ++
      ',' :: ' ' :: joinCoords cs

/-- The serialized WKT of one ring. -/
def wktOfRing (ring : List (ℚ × ℚ)) : String :=
  ⟨('S' :: 'R' :: 'I' :: 'D' :: '=' :: '4' :: '3' :: '2' :: '6' :: ';' ::
    'P' :: 'O' :: 'L' :: 'Y' :: 'G' :: 'O' :: 'N' :: ' ' :: '(' :: '(' :: []) ++
    joinCoords ring ++ [')', ')']⟩

/-- The `for … of features` loop body of `convertToWKT`: the first feature
whose geometry type is `"Polygon"` is serialized from its outer ring
(`coordinates[0]`); a missing geometry on any feature reached, or a
missing/empty `coordinates` on the selected polygon, throws (caught to
`null`); exhausting the list yields `null`. -/
def convertToWKTGo : List Feature → Option String
  | [] => none
  | f :: rest =>
    match f.geometry with
    | none => none
    | some geom =>
      if geom.type = "Polygon" then
        match geom.coordinates with
        | none => none
        | some [] => none
        | some (ring :: _) => some (wktOfRing ring)
      else convertToWKTGo rest

/-- `convertToWKT` (lines 863-880): `geoJson.features || []`, then the scan
above. -/
def convertToWKT (geoJson : GeoJson) : Option String :=
  convertToWKTGo (geoJson.features.getD [])

/-- The characters a WKT ring body is built from: digits (48-57), `-` (45),
`.` (46), space (32) and comma (44). -/
def ringChar (c : Char) : Bool :=
  decide ((48 ≤ c.toNat ∧ c.toNat ≤ 57) ∨ c.toNat = 45 ∨ c.toNat = 46 ∨
    c.toNat = 32 ∨ c.toNat = 44)

/-- Characters a rendered number is built from: digits, `-`, `.`. -/
def numChar (c : Char) : Bool :=
  decide ((48 ≤ c.toNat ∧ c.toNat ≤ 57) ∨ c.toNat = 45 ∨ c.toNat = 46)


lemma lookupGroup_insertGroup (gs : List ((Nat × Nat) × List HistoricalImage))
    (k' : Nat × Nat) (img : HistoricalImage) (k : Nat × Nat) :
    lookupGroup (insertGroup gs k' img) k =
      if k' = k then lookupGroup gs k ++ [img] else lookupGroup gs k := by
  induction gs with
  | nil =>
    simp only [insertGroup, lookupGroup]
    by_cases h : k' = k <;> simp [h]
  | cons e rest ih =>
    obtain ⟨k₀, l₀⟩ := e
    simp only [insertGroup]
    by_cases h0 : k₀ = k'
    · subst h0
      by_cases hk : k₀ = k
      · subst hk; simp [lookupGroup]
      · simp [lookupGroup, hk, if_neg (fun h => hk h)]
    · simp only [if_neg h0, lookupGroup]
      by_cases hk : k₀ = k
      · subst hk
        have : k' ≠ k₀ := fun h => h0 h.symm
        simp [this]
      · simp [hk, ih]

lemma lookupGroup_foldl (l : List HistoricalImage)
    (gs : List ((Nat × Nat) × List HistoricalImage)) (k : Nat × Nat) :
    lookupGroup (l.foldl (fun gs img => insertGroup gs (imgKey img) img) gs) k =
      lookupGroup gs k ++ l.filter (fun i => decide (imgKey i = k)) := by
  induction l generalizing gs with
  | nil => simp
  | cons i l ih =>
    simp only [List.foldl_cons, List.filter_cons, ih, lookupGroup_insertGroup]
    by_cases h : imgKey i = k
    · simp [h, List.append_assoc]
    · simp [h]

/-- `monthlyGroups[k]` is exactly the sublist of input records whose capture
month is `k`, in input order. -/
lemma lookupGroup_groupByMonth (l : List HistoricalImage) (k : Nat × Nat) :
    lookupGroup (groupByMonth l) k =
      l.filter (fun i => decide (imgKey i = k)) := by
  have h := lookupGroup_foldl l [] k
  simpa [groupByMonth, lookupGroup, imgKey] using h

lemma keys_insertGroup (gs : List ((Nat × Nat) × List HistoricalImage))
    (k' : Nat × Nat) (img : HistoricalImage) :
    (insertGroup gs k' img).map Prod.fst =
      if k' ∈ gs.map Prod.fst then gs.map Prod.fst
      else gs.map Prod.fst ++ [k'] := by
  induction gs with
  | nil => simp [insertGroup]
  | cons e rest ih =>
    obtain ⟨k₀, l₀⟩ := e
    simp only [insertGroup]
    by_cases h0 : k₀ = k'
    · subst h0; simp
    · have : k' ≠ k₀ := fun h => h0 h.symm
      simp only [if_neg h0, List.map_cons, ih]
      by_cases hmem : k' ∈ rest.map Prod.fst
      · simp [hmem, this]
      · simp [hmem, this]

lemma keys_foldl_mem (l : List HistoricalImage)
    (gs : List ((Nat × Nat) × List HistoricalImage)) (k : Nat × Nat) :
    (k ∈ (l.foldl (fun gs img => insertGroup gs (imgKey img) img) gs).map
        Prod.fst) ↔
      k ∈ gs.map Prod.fst ∨ ∃ i ∈ l, imgKey i = k := by
  induction l generalizing gs with
  | nil => simp
  | cons i l ih =>
    simp only [List.foldl_cons, ih, keys_insertGroup, List.mem_cons]
    by_cases hmem : imgKey i ∈ gs.map Prod.fst
    · simp only [if_pos hmem]
      constructor
      · rintro (h | ⟨j, hj, hk⟩)
        · exact Or.inl h
        · exact Or.inr ⟨j, Or.inr hj, hk⟩
      · rintro (h | ⟨j, hj | hj, hk⟩)
        · exact Or.inl h
        · subst hj; exact Or.inl (hk ▸ hmem)
        · exact Or.inr ⟨j, hj, hk⟩
    · simp only [if_neg hmem, List.mem_append, List.mem_singleton]
      constructor
      · rintro ((h | h) | ⟨j, hj, hk⟩)
        · exact Or.inl h
        · exact Or.inr ⟨i, Or.inl rfl, h.symm⟩
        · exact Or.inr ⟨j, Or.inr hj, hk⟩
      · rintro (h | ⟨j, hj | hj, hk⟩)
        · exact Or.inl (Or.inl h)
        · subst hj; exact Or.inl (Or.inr hk.symm)
        · exact Or.inr ⟨j, hj, hk⟩

/-- A month key occurs among the groups exactly when some input record has
that capture month. -/
lemma keys_groupByMonth_mem (l : List HistoricalImage) (k : Nat × Nat) :
    k ∈ (groupByMonth l).map Prod.fst ↔ ∃ i ∈ l, imgKey i = k := by
  have h := keys_foldl_mem l [] k
  simpa [groupByMonth, imgKey] using h

lemma keys_foldl_nodup (l : List HistoricalImage)
    (gs : List ((Nat × Nat) × List HistoricalImage))
    (h : (gs.map Prod.fst).Nodup) :
    ((l.foldl (fun gs img => insertGroup gs (imgKey img) img) gs).map
        Prod.fst).Nodup := by
  induction l generalizing gs with
  | nil => simpa using h
  | cons i l ih =>
    simp only [List.foldl_cons]
    apply ih
    rw [keys_insertGroup]
    by_cases hmem : imgKey i ∈ gs.map Prod.fst
    · simpa [hmem] using h
    · simp only [if_neg hmem]
      exact (List.nodup_append_comm.mpr (by simpa using h.cons hmem))

/-- The grouping never produces two groups with the same month key. -/
lemma keys_groupByMonth_nodup (l : List HistoricalImage) :
    ((groupByMonth l).map Prod.fst).Nodup := by
  have h := keys_foldl_nodup l [] (by simp)
  simpa [groupByMonth, imgKey] using h

lemma keyLt_of_keyLe_ne {a b : Nat × Nat} (hle : keyLe a b) (hne : a ≠ b) :
    keyLt a b := by
  rcases hle with h | ⟨he, h2⟩
  · exact Or.inl h
  · rcases Nat.lt_or_ge a.2 b.2 with h' | h'
    · exact Or.inr ⟨he, h'⟩
    · exact absurd (Prod.ext he (le_antisymm h2 h')) hne

lemma sortedMonths_perm (gs : List ((Nat × Nat) × List HistoricalImage)) :
    List.Perm (sortedMonths gs) (gs.map Prod.fst) :=
  (List.reverse_perm _).trans (List.perm_insertionSort keyLe _)

/-- `sort().reverse()` yields the keys in strictly descending
(year, month)-lexicographic order, i.e. most recent month first. -/
lemma sortedMonths_pairwise (gs : List ((Nat × Nat) × List HistoricalImage))
    (h : (gs.map Prod.fst).Nodup) :
    List.Pairwise (fun a b => keyLt b a) (sortedMonths gs) := by
  have hsorted : List.Sorted keyLe (List.insertionSort keyLe (gs.map Prod.fst)) :=
    List.sorted_insertionSort keyLe _
  have hnodup : (List.insertionSort keyLe (gs.map Prod.fst)).Nodup :=
    (List.perm_insertionSort keyLe _).nodup_iff.mpr h
  have hsl : List.Pairwise keyLt (List.insertionSort keyLe (gs.map Prod.fst)) :=
    (hsorted.and hnodup).imp fun hx => keyLt_of_keyLe_ne hx.1 hx.2
  rw [sortedMonths, List.pairwise_reverse]
  exact hsl

lemma lookupGroup_map_self (gs : List ((Nat × Nat) × List HistoricalImage))
    (h : (gs.map Prod.fst).Nodup) :
    (gs.map Prod.fst).map (fun k => lookupGroup gs k) =
      gs.map (fun e => e.2) := by
  induction gs with
  | nil => simp
  | cons e rest ih =>
    obtain ⟨k₀, l₀⟩ := e
    simp only [List.map_cons, List.map_map] at *
    obtain ⟨hk₀, hrest⟩ := List.nodup_cons.mp h
    refine congrArg₂ _ (by simp [lookupGroup]) ?_
    have step : ∀ k ∈ rest.map Prod.fst,
        lookupGroup ((k₀, l₀) :: rest) k = lookupGroup rest k := by
      intro k hk
      have hne : k₀ ≠ k := fun he => hk₀ (he ▸ hk)
      simp [lookupGroup, hne]
    calc rest.map (fun e => lookupGroup ((k₀, l₀) :: rest) e.1)
        = rest.map (fun e => lookupGroup rest e.1) := by
          apply List.map_congr_left
          intro e he
          exact step e.1 (List.mem_map_of_mem Prod.fst he)
      _ = rest.map (fun e => e.2) := by
          have := ih hrest
          simpa [List.map_map] using this

lemma sum_lengths_insertGroup (gs : List ((Nat × Nat) × List HistoricalImage))
    (k : Nat × Nat) (img : HistoricalImage) :
    ((insertGroup gs k img).map (fun e => e.2.length)).sum =
      (gs.map (fun e => e.2.length)).sum + 1 := by
  induction gs with
  | nil => simp [insertGroup]
  | cons e rest ih =>
    obtain ⟨k₀, l₀⟩ := e
    simp only [insertGroup]
    by_cases h0 : k₀ = k
    · simp only [if_pos h0, List.map_cons, List.sum_cons, List.length_append,
        List.length_singleton]
      omega
    · simp only [if_neg h0, List.map_cons, List.sum_cons, ih]
      omega

lemma sum_lengths_foldl (l : List HistoricalImage)
    (gs : List ((Nat × Nat) × List HistoricalImage)) :
    ((l.foldl (fun gs img => insertGroup gs (imgKey img) img) gs).map
        (fun e => e.2.length)).sum =
      (gs.map (fun e => e.2.length)).sum + l.length := by
  induction l generalizing gs with
  | nil => simp
  | cons i l ih =>
    simp only [List.foldl_cons, ih, sum_lengths_insertGroup, List.length_cons]
    omega

/-- Each record lands in exactly one group: group sizes sum to the input
length. -/
lemma sum_lengths_groupByMonth (l : List HistoricalImage) :
    ((groupByMonth l).map (fun e => e.2.length)).sum = l.length := by
  have h := sum_lengths_foldl l []
  simpa [groupByMonth, imgKey] using h

/-- The keys of the output buckets, in output order. -/
lemma monthlyAverages_map_key (l : List HistoricalImage) :
    (Modal.monthlyAverages l).map (fun b => b.monthKey) =
      sortedMonths (groupByMonth l) := by
  simp [Modal.monthlyAverages, List.map_map, Function.comp_def]

/-- Every output bucket's fields are determined by the sublist of input
records sharing its month: `count` is that sublist's length and the averages
are the 2-decimal rounding of sum (nulls as 0) over length. -/
lemma monthlyAverages_bucket (l : List HistoricalImage) (b : MonthBucket)
    (hb : b ∈ Modal.monthlyAverages l) :
    b.count = (l.filter (fun i => decide (imgKey i = b.monthKey))).length ∧
    b.avgVegetation = round2
      (((l.filter (fun i => decide (imgKey i = b.monthKey))).foldl
          (fun s img => s + img.vegetation_percentage.getD 0) 0) /
        ((l.filter (fun i => decide (imgKey i = b.monthKey))).length : ℚ)) ∧
    b.avgWater = round2
      (((l.filter (fun i => decide (imgKey i = b.monthKey))).foldl
          (fun s img => s + img.water_percentage.getD 0) 0) /
        ((l.filter (fun i => decide (imgKey i = b.monthKey))).length : ℚ)) := by
  simp only [Modal.monthlyAverages, List.mem_map] at hb
  obtain ⟨k, _, rfl⟩ := hb
  simp [lookupGroup_groupByMonth]

lemma keyLe_refl (a : Nat × Nat) : keyLe a a := Or.inr ⟨rfl, le_refl _⟩

lemma keyLe_of_keyLt {a b : Nat × Nat} (h : keyLt a b) : keyLe a b := by
  rcases h with h | ⟨he, h2⟩
  · exact Or.inl h
  · exact Or.inr ⟨he, le_of_lt h2⟩

/-- The output buckets are in strictly descending key order. -/
lemma monthlyAverages_pairwise (l : List HistoricalImage) :
    List.Pairwise (fun a b => keyLt b.monthKey a.monthKey)
      (Modal.monthlyAverages l) := by
  have h := sortedMonths_pairwise (groupByMonth l) (keys_groupByMonth_nodup l)
  rw [Modal.monthlyAverages, List.pairwise_map]
  exact h

lemma head_key_max {ms : List MonthBucket}
    (hp : List.Pairwise (fun a b => keyLt b.monthKey a.monthKey) ms)
    {newest : MonthBucket} (h : ms.head? = some newest) :
    ∀ b ∈ ms, keyLe b.monthKey newest.monthKey := by
  cases ms with
  | nil => simp at h
  | cons a rest =>
    simp only [List.head?_cons, Option.some.injEq] at h
    subst h
    intro b hb
    rcases List.mem_cons.mp hb with rfl | hb
    · exact keyLe_refl _
    · exact keyLe_of_keyLt (List.rel_of_pairwise_cons hp hb)

lemma getLast_key_min {ms : List MonthBucket}
    (hp : List.Pairwise (fun a b => keyLt b.monthKey a.monthKey) ms)
    {oldest : MonthBucket} (h : ms.getLast? = some oldest) :
    ∀ b ∈ ms, keyLe oldest.monthKey b.monthKey := by
  have hrev : List.Pairwise (fun a b => keyLt a.monthKey b.monthKey)
      ms.reverse := by
    rw [List.pairwise_reverse]; exact hp
  have hhead : ms.reverse.head? = some oldest := by
    rw [List.head?_reverse]; exact h
  intro b hb
  have hb' : b ∈ ms.reverse := by simpa using hb
  cases hms : ms.reverse with
  | nil => rw [hms] at hb'; simp at hb'
  | cons a rest =>
    rw [hms] at hhead hb' hrev
    simp only [List.head?_cons, Option.some.injEq] at hhead
    subst hhead
    rcases List.mem_cons.mp hb' with rfl | hb'
    · exact keyLe_refl _
    · exact keyLe_of_keyLt (List.rel_of_pairwise_cons hrev hb')

/-! The verified claims. -/

/-- C1 (counterexample): the two copies of the monthly-average/trend
computation never report different trend directions — no input distinguishes
them, refuting the claimed divergence. -/
theorem trends_copies_never_diverge :
    ¬ ∃ images : List HistoricalImage,
        Modal.trends (Modal.monthlyAverages images) ≠
          MapModal.trends (MapModal.monthlyAverages images) :=
  fun ⟨_, h⟩ => h rfl

/-- C1 (amended): the monthly-average computation is indeed duplicated in the
two source locations, but the two copies use identical sort-order and
trend-comparison conventions (both sort keys ascending and reverse, both
compare `monthlyAverages[0]` — the newest bucket — against
`monthlyAverages[length-1]` — the oldest — in the same direction; the two
`const` declarations merely appear in swapped textual order), so on every
input the two copies produce the same buckets and the same trend
directions. -/
theorem aggregation_copies_agree (images : List HistoricalImage) :
    Modal.monthlyAverages images = MapModal.monthlyAverages images ∧
    Modal.trends (Modal.monthlyAverages images) =
      MapModal.trends (MapModal.monthlyAverages images) :=
  ⟨rfl, rfl⟩

/-- C5: for every input record list, the bucket counts produced by the
monthly aggregation sum to the number of input records — every record is
assigned to exactly one (year, month) bucket, none dropped and none
duplicated. -/
theorem monthlyAverages_counts_sum_to_length (l : List HistoricalImage) :
    ((Modal.monthlyAverages l).map (fun b => b.count)).sum = l.length := by
  have hn := keys_groupByMonth_nodup l
  have h1 : (Modal.monthlyAverages l).map (fun b => b.count) =
      (sortedMonths (groupByMonth l)).map
        (fun k => (lookupGroup (groupByMonth l) k).length) := by
    simp [Modal.monthlyAverages, List.map_map, Function.comp_def]
  rw [h1]
  have hperm :
      List.Perm
        ((sortedMonths (groupByMonth l)).map
          (fun k => (lookupGroup (groupByMonth l) k).length))
        (((groupByMonth l).map Prod.fst).map
          (fun k => (lookupGroup (groupByMonth l) k).length)) :=
    (sortedMonths_perm _).map _
  rw [hperm.sum_eq]
  have h2 : ((groupByMonth l).map Prod.fst).map
        (fun k => (lookupGroup (groupByMonth l) k).length) =
      (groupByMonth l).map (fun e => e.2.length) := by
    have h3 := congrArg (List.map List.length)
      (lookupGroup_map_self (groupByMonth l) hn)
    simpa [List.map_map, Function.comp_def] using h3
  rw [h2, sum_lengths_groupByMonth]

/-- C8: the bucket sequence is sorted strictly descending by (year, month)
key — most recent month first — and the output ordering is a pure function of
the records' capture dates: permuting the input records does not change the
order of the output buckets. -/
theorem monthlyAverages_desc_and_perm_invariant
    (l l' : List HistoricalImage) :
    List.Pairwise (fun a b => keyLt b.monthKey a.monthKey)
      (Modal.monthlyAverages l) ∧
    (List.Perm l l' →
      (Modal.monthlyAverages l).map (fun b => b.monthKey) =
        (Modal.monthlyAverages l').map (fun b => b.monthKey)) := by
  refine ⟨monthlyAverages_pairwise l, fun hperm => ?_⟩
  rw [monthlyAverages_map_key, monthlyAverages_map_key]
  have hmemkeys : ∀ k, k ∈ (groupByMonth l).map Prod.fst ↔
      k ∈ (groupByMonth l').map Prod.fst := by
    intro k
    rw [keys_groupByMonth_mem, keys_groupByMonth_mem]
    constructor
    · rintro ⟨i, hi, hk⟩; exact ⟨i, hperm.mem_iff.mp hi, hk⟩
    · rintro ⟨i, hi, hk⟩; exact ⟨i, hperm.mem_iff.mpr hi, hk⟩
  have hkeysperm : List.Perm ((groupByMonth l).map Prod.fst)
      ((groupByMonth l').map Prod.fst) :=
    (List.perm_ext_iff_of_nodup (keys_groupByMonth_nodup l)
      (keys_groupByMonth_nodup l')).mpr hmemkeys
  have hsorteq : List.insertionSort keyLe ((groupByMonth l).map Prod.fst) =
      List.insertionSort keyLe ((groupByMonth l').map Prod.fst) :=
    List.eq_of_perm_of_sorted
      (((List.perm_insertionSort keyLe _).trans hkeysperm).trans
        (List.perm_insertionSort keyLe _).symm)
      (List.sorted_insertionSort keyLe _) (List.sorted_insertionSort keyLe _)
  unfold sortedMonths
  rw [hsorteq]

/-- Witness for C8 at a concrete two-record input and its transposition. -/
theorem monthlyAverages_desc_and_perm_invariant_witness :
    List.Perm
      [(⟨⟨2024, 2⟩, some 10, some 20⟩ : HistoricalImage),
       ⟨⟨2024, 1⟩, some 30, some 40⟩]
      [(⟨⟨2024, 1⟩, some 30, some 40⟩ : HistoricalImage),
       ⟨⟨2024, 2⟩, some 10, some 20⟩] ∧
    (Modal.monthlyAverages
        [⟨⟨2024, 2⟩, some 10, some 20⟩, ⟨⟨2024, 1⟩, some 30, some 40⟩]).map
        (fun b => b.monthKey) =
      (Modal.monthlyAverages
        [⟨⟨2024, 1⟩, some 30, some 40⟩, ⟨⟨2024, 2⟩, some 10, some 20⟩]).map
        (fun b => b.monthKey) :=
  ⟨List.Perm.swap _ _ _,
   (monthlyAverages_desc_and_perm_invariant _ _).2 (List.Perm.swap _ _ _)⟩

/-- C3: `trends` returns (stable, stable) for every input with fewer than 2
month buckets, and otherwise compares the most recent bucket's average
(`monthlyAverages[0]`, the head, which carries the maximal month key) against
the oldest bucket's (`monthlyAverages[length-1]`, the last element, carrying
the minimal key): strictly greater gives up (increasing), strictly less gives
down (decreasing), equal gives stable. -/
theorem trends_stable_or_compares_endpoints (ms : List MonthBucket)
    (l : List HistoricalImage) :
    (ms.length < 2 → Modal.trends ms = (.stable, .stable)) ∧
    (∀ newest oldest, 2 ≤ ms.length → ms.head? = some newest →
      ms.getLast? = some oldest →
      Modal.trends ms =
        ((if oldest.avgVegetation < newest.avgVegetation then .up
          else if newest.avgVegetation < oldest.avgVegetation then .down
          else .stable),
         (if oldest.avgWater < newest.avgWater then .up
          else if newest.avgWater < oldest.avgWater then .down
          else .stable))) ∧
    (∀ newest, (Modal.monthlyAverages l).head? = some newest →
      ∀ b ∈ Modal.monthlyAverages l, keyLe b.monthKey newest.monthKey) ∧
    (∀ oldest, (Modal.monthlyAverages l).getLast? = some oldest →
      ∀ b ∈ Modal.monthlyAverages l, keyLe oldest.monthKey b.monthKey) := by
  refine ⟨fun h => by simp [Modal.trends, h], ?_, ?_, ?_⟩
  · intro newest oldest hlen hhead hlast
    have hnot : ¬ ms.length < 2 := by omega
    simp [Modal.trends, hnot, hhead, hlast, cmpTrend]
  · intro newest hhead b hb
    exact head_key_max (monthlyAverages_pairwise l) hhead b hb
  · intro oldest hlast b hb
    exact getLast_key_min (monthlyAverages_pairwise l) hlast b hb

/-- Witness for C3 at a concrete two-bucket input. -/
theorem trends_stable_or_compares_endpoints_witness :
    2 ≤ ([⟨(2024, 2), 10, 5, 1⟩, ⟨(2024, 1), 4, 5, 1⟩] :
        List MonthBucket).length ∧
    Modal.trends [⟨(2024, 2), 10, 5, 1⟩, ⟨(2024, 1), 4, 5, 1⟩] =
      ((if (⟨(2024, 1), 4, 5, 1⟩ : MonthBucket).avgVegetation <
            (⟨(2024, 2), 10, 5, 1⟩ : MonthBucket).avgVegetation then .up
        else if (⟨(2024, 2), 10, 5, 1⟩ : MonthBucket).avgVegetation <
            (⟨(2024, 1), 4, 5, 1⟩ : MonthBucket).avgVegetation then .down
        else .stable),
       (if (⟨(2024, 1), 4, 5, 1⟩ : MonthBucket).avgWater <
            (⟨(2024, 2), 10, 5, 1⟩ : MonthBucket).avgWater then .up
        else if (⟨(2024, 2), 10, 5, 1⟩ : MonthBucket).avgWater <
            (⟨(2024, 1), 4, 5, 1⟩ : MonthBucket).avgWater then .down
        else .stable)) :=
  ⟨by decide,
   (trends_stable_or_compares_endpoints _ []).2.1 _ _ (by decide) rfl rfl⟩

/-- C4: every output bucket's averages are the arithmetic mean over the whole
group of records sharing its calendar month, with missing/null percentages
replaced by 0 in the numerator but still counted in the denominator, rounded
to 2 decimal places; on the two-record January-2024 example this produces
exactly one bucket with avgVegetation = 20, avgWater = 30, count = 2. -/
theorem monthlyAverages_mean_nulls_as_zero :
    (∀ (l : List HistoricalImage) (b : MonthBucket),
      b ∈ Modal.monthlyAverages l →
        b.count =
          (l.filter (fun i => decide (imgKey i = b.monthKey))).length ∧
        b.avgVegetation = round2
          (((l.filter (fun i => decide (imgKey i = b.monthKey))).foldl
              (fun s img => s + img.vegetation_percentage.getD 0) 0) /
            ((l.filter (fun i => decide (imgKey i = b.monthKey))).length : ℚ)) ∧
        b.avgWater = round2
          (((l.filter (fun i => decide (imgKey i = b.monthKey))).foldl
              (fun s img => s + img.water_percentage.getD 0) 0) /
            ((l.filter (fun i => decide (imgKey i = b.monthKey))).length : ℚ))) ∧
    Modal.monthlyAverages
        [⟨⟨2024, 1⟩, some 10, some 20⟩, ⟨⟨2024, 1⟩, some 30, some 40⟩] =
      [⟨(2024, 1), 20, 30, 2⟩] := by
  refine ⟨fun l b hb => monthlyAverages_bucket l b hb, ?_⟩
  norm_num [Modal.monthlyAverages, groupByMonth, insertGroup, sortedMonths,
    lookupGroup, monthKeyOf, round2, List.insertionSort, List.orderedInsert,
    keyLe]

/-- Witness for C4 at the concrete two-record January-2024 input. -/
theorem monthlyAverages_mean_nulls_as_zero_witness :
    ((⟨(2024, 1), 20, 30, 2⟩ : MonthBucket) ∈
      Modal.monthlyAverages
        [⟨⟨2024, 1⟩, some 10, some 20⟩, ⟨⟨2024, 1⟩, some 30, some 40⟩]) ∧
    (⟨(2024, 1), 20, 30, 2⟩ : MonthBucket).count =
      (([⟨⟨2024, 1⟩, some 10, some 20⟩,
          (⟨⟨2024, 1⟩, some 30, some 40⟩ : HistoricalImage)]).filter
        (fun i => decide
          (imgKey i = (⟨(2024, 1), 20, 30, 2⟩ : MonthBucket).monthKey))).length := by
  have hmem : (⟨(2024, 1), 20, 30, 2⟩ : MonthBucket) ∈
      Modal.monthlyAverages
        [⟨⟨2024, 1⟩, some 10, some 20⟩, ⟨⟨2024, 1⟩, some 30, some 40⟩] := by
    norm_num [Modal.monthlyAverages, groupByMonth, insertGroup, sortedMonths,
      lookupGroup, monthKeyOf, round2, List.insertionSort, List.orderedInsert,
      keyLe]
  exact ⟨hmem, (monthlyAverages_mean_nulls_as_zero.1 _ _ hmem).1⟩

/-! Claims about the geometry converter. -/

lemma foldl_add_eq_sum {α : Type} (f : α → ℚ) (l : List α) (a : ℚ) :
    l.foldl (fun s x => s + f x) a = a + (l.map f).sum := by
  induction l generalizing a with
  | nil => simp
  | cons x l ih => simp [ih, add_assoc]

/-- C9: on every non-empty coordinate list the centroid is the arithmetic
mean of the latitudes paired with the arithmetic mean of the longitudes (not
area-weighted); the [[0,0],[0,10],[10,10],[10,0]] example gives [5,5]; and on
the empty list the division is unguarded with a zero denominator (NaN in JS,
junk `0/0` in the rational model) rather than a typed failure. -/
theorem getPolygonCenter_arithmetic_centroid (coords : List (ℚ × ℚ)) :
    (coords ≠ [] →
      getPolygonCenter coords =
        ((coords.map Prod.fst).sum / (coords.length : ℚ),
         (coords.map Prod.snd).sum / (coords.length : ℚ))) ∧
    getPolygonCenter [(0, 0), (0, 10), (10, 10), (10, 0)] = (5, 5) ∧
    getPolygonCenter [] = ((0 : ℚ) / (0 : ℚ), (0 : ℚ) / (0 : ℚ)) := by
  refine ⟨fun _ => ?_, ?_, ?_⟩
  · simp [getPolygonCenter, foldl_add_eq_sum]
  · norm_num [getPolygonCenter]
  · norm_num [getPolygonCenter]

/-- Witness for C9 at the square example. -/
theorem getPolygonCenter_arithmetic_centroid_witness :
    (([(0, 0), (0, 10), (10, 10), (10, 0)] : List (ℚ × ℚ)) ≠ []) ∧
    getPolygonCenter [(0, 0), (0, 10), (10, 10), (10, 0)] =
      ((([(0, 0), (0, 10), (10, 10), (10, 0)] : List (ℚ × ℚ)).map
          Prod.fst).sum /
        ((([(0, 0), (0, 10), (10, 10), (10, 0)] : List (ℚ × ℚ)).length : ℚ)),
       (([(0, 0), (0, 10), (10, 10), (10, 0)] : List (ℚ × ℚ)).map
          Prod.snd).sum /
        ((([(0, 0), (0, 10), (10, 10), (10, 0)] : List (ℚ × ℚ)).length : ℚ))) :=
  ⟨by simp,
   (getPolygonCenter_arithmetic_centroid _).1 (by simp)⟩

lemma convertToWKTGo_skip (pre rest : List Feature)
    (hpre : ∀ g ∈ pre, ∃ geo, g.geometry = some geo ∧ geo.type ≠ "Polygon") :
    convertToWKTGo (pre ++ rest) = convertToWKTGo rest := by
  induction pre with
  | nil => rfl
  | cons f pre ih =>
    obtain ⟨geo, hg, ht⟩ := hpre f (by simp)
    simp only [List.cons_append, convertToWKTGo, hg, if_neg ht]
    exact ih fun g hgm => hpre g (by simp [hgm])

/-- C7: `convertToWKT` serializes the outer ring (first coordinate ring,
holes silently dropped) of the first feature whose geometry type is
`"Polygon"`, ignoring every feature before it of a different geometry type
and every later feature; it returns `null` when no polygon feature exists,
and `null` on a structural access error — a missing `geometry` on a feature
reached by the scan, or a missing/empty `coordinates` on the selected
polygon (including a missing `features` array). -/
theorem convertToWKT_first_polygon :
    (∀ (pre post : List Feature) (geom : Geometry)
       (ring : List (ℚ × ℚ)) (rings : List (List (ℚ × ℚ))) (f : Feature),
      (∀ g ∈ pre, ∃ geo, g.geometry = some geo ∧ geo.type ≠ "Polygon") →
      f.geometry = some geom → geom.type = "Polygon" →
      geom.coordinates = some (ring :: rings) →
      convertToWKT ⟨some (pre ++ f :: post)⟩ = some (wktOfRing ring)) ∧
    (∀ features : List Feature,
      (∀ g ∈ features, ∃ geo, g.geometry = some geo ∧ geo.type ≠ "Polygon") →
      convertToWKT ⟨some features⟩ = none) ∧
    (∀ (pre post : List Feature) (f : Feature),
      (∀ g ∈ pre, ∃ geo, g.geometry = some geo ∧ geo.type ≠ "Polygon") →
      f.geometry = none →
      convertToWKT ⟨some (pre ++ f :: post)⟩ = none) ∧
    (∀ (pre post : List Feature) (geom : Geometry) (f : Feature),
      (∀ g ∈ pre, ∃ geo, g.geometry = some geo ∧ geo.type ≠ "Polygon") →
      f.geometry = some geom → geom.type = "Polygon" →
      (geom.coordinates = none ∨ geom.coordinates = some []) →
      convertToWKT ⟨some (pre ++ f :: post)⟩ = none) ∧
    convertToWKT ⟨none⟩ = none := by
  refine ⟨?_, ?_, ?_, ?_, rfl⟩
  · intro pre post geom ring rings f hpre hg ht hc
    simp only [convertToWKT, Option.getD_some]
    rw [convertToWKTGo_skip pre _ hpre]
    simp [convertToWKTGo, hg, ht, hc]
  · intro features hall
    simp only [convertToWKT, Option.getD_some]
    have h := convertToWKTGo_skip features [] hall
    simpa using h
  · intro pre post f hpre hg
    simp only [convertToWKT, Option.getD_some]
    rw [convertToWKTGo_skip pre _ hpre]
    simp [convertToWKTGo, hg]
  · intro pre post geom f hpre hg ht hc
    simp only [convertToWKT, Option.getD_some]
    rw [convertToWKTGo_skip pre _ hpre]
    rcases hc with hc | hc <;> simp [convertToWKTGo, hg, ht, hc]

/-- Witness for C7: a Point feature before the polygon is skipped, the
polygon's hole ring and a later polygon feature are ignored. -/
theorem convertToWKT_first_polygon_witness :
    ((⟨some ⟨"Point", none⟩⟩ : Feature).geometry = some ⟨"Point", none⟩ ∧
      (⟨"Point", none⟩ : Geometry).type ≠ "Polygon") ∧
    convertToWKT
        ⟨some [⟨some ⟨"Point", none⟩⟩,
               ⟨some ⟨"Polygon", some [[(10, 20), (30, 40), (10, 20)],
                                       [(1, 1), (2, 2), (1, 1)]]⟩⟩,
               ⟨some ⟨"Polygon", some [[(7, 7), (8, 8), (7, 7)]]⟩⟩]⟩ =
      some (wktOfRing [(10, 20), (30, 40), (10, 20)]) := by
  refine ⟨⟨rfl, by decide⟩, ?_⟩
  exact convertToWKT_first_polygon.1 [⟨some ⟨"Point", none⟩⟩]
    [⟨some ⟨"Polygon", some [[(7, 7), (8, 8), (7, 7)]]⟩⟩] _ _ _ _
    (by intro g hg
        have hg' := List.mem_singleton.mp hg
        subst hg'
        exact ⟨⟨"Point", none⟩, rfl, by decide⟩)
    rfl rfl rfl

lemma mapOrNone_eq_none_iff {α β : Type} (f : α → Option β) (l : List α) :
    mapOrNone f l = none ↔ ∃ a ∈ l, f a = none := by
  induction l with
  | nil => simp [mapOrNone]
  | cons a l ih =>
    simp only [mapOrNone]
    cases hfa : f a with
    | none =>
      constructor
      · intro _; exact ⟨a, List.mem_cons_self a l, hfa⟩
      · intro _; rfl
    | some b =>
      cases hml : mapOrNone f l with
      | none =>
        simp only [Option.map_none']
        constructor
        · intro _
          obtain ⟨x, hx, hfx⟩ := ih.mp hml
          exact ⟨x, List.mem_cons_of_mem a hx, hfx⟩
        · intro _; trivial
      | some bs =>
        simp only [Option.map_some']
        constructor
        · intro h; cases h
        · rintro ⟨x, hx, hfx⟩
          rcases List.mem_cons.mp hx with rfl | hx
          · rw [hfa] at hfx; cases hfx
          · have hnone : mapOrNone f l = none := ih.mpr ⟨x, hx, hfx⟩
            rw [hml] at hnone; cases hnone

lemma mapOrNone_eq_some {α β : Type} (f : α → Option β) (l : List α)
    (h : ∀ a ∈ l, ∃ b, f a = some b) :
    ∃ ys, mapOrNone f l = some ys ∧ ys.length = l.length ∧
      ∀ (i : Nat) (hi : i < l.length) (hy : i < ys.length),
        f (l.get ⟨i, hi⟩) = some (ys.get ⟨i, hy⟩) := by
  induction l with
  | nil => exact ⟨[], rfl, rfl, fun i hi _ => absurd hi (Nat.not_lt_zero i)⟩
  | cons a l ih =>
    obtain ⟨b, hb⟩ := h a (List.mem_cons_self a l)
    obtain ⟨ys, hys, hlen, hpt⟩ :=
      ih fun x hx => h x (List.mem_cons_of_mem a hx)
    refine ⟨b :: ys, ?_, by simp [hlen], ?_⟩
    · simp [mapOrNone, hb, hys]
    · intro i hi hy
      cases i with
      | zero => simpa using hb
      | succ j => simpa using hpt j (by simpa using hi) (by simpa using hy)

/-- C6: `parseWKTPolygon` fails — a null result with no partial
coordinates — exactly when the POLYGON pattern is absent from the input
(after upper-casing and stripping an optional SRID prefix) or when some
comma field's coordinate parse throws on a NaN token; on every other input
it returns the full coordinate list, one parsed pair per comma field, in
order — failure is atomic. -/
theorem parseWKTPolygon_error_characterization (wkt : String) :
    (parseWKTPolygon wkt = none ↔
      polygonMatch (stripSRID (jsToUpper wkt.toList)) = none ∨
      ∃ cs, polygonMatch (stripSRID (jsToUpper wkt.toList)) = some cs ∧
        ∃ pair ∈ splitOnComma cs, parseCoordPair pair = none) ∧
    (∀ cs, polygonMatch (stripSRID (jsToUpper wkt.toList)) = some cs →
      (∀ pair ∈ splitOnComma cs, (parseCoordPair pair).isSome) →
      ∃ coords, parseWKTPolygon wkt = some coords ∧
        coords.length = (splitOnComma cs).length ∧
        ∀ (i : Nat) (hi : i < (splitOnComma cs).length)
          (hc : i < coords.length),
          parseCoordPair ((splitOnComma cs).get ⟨i, hi⟩) =
            some (coords.get ⟨i, hc⟩)) := by
  constructor
  · simp only [parseWKTPolygon]
    cases hm : polygonMatch (stripSRID (jsToUpper wkt.toList)) with
    | none =>
      constructor
      · intro _; exact Or.inl rfl
      · intro _; rfl
    | some cs =>
      rw [mapOrNone_eq_none_iff]
      constructor
      · intro h
        exact Or.inr ⟨cs, rfl, h⟩
      · rintro (h | ⟨cs', hcs', hpair⟩)
        · cases h
        · obtain rfl : cs = cs' := by
            injection hcs'
          exact hpair
  · intro cs hm hall
    have hall' : ∀ pair ∈ splitOnComma cs, ∃ v, parseCoordPair pair = some v :=
      fun p hp => Option.isSome_iff_exists.mp (hall p hp)
    obtain ⟨ys, hys, hlen, hpt⟩ := mapOrNone_eq_some parseCoordPair _ hall'
    refine ⟨ys, ?_, hlen, hpt⟩
    simp only [parseWKTPolygon]
    rw [hm]
    exact hys

/-- Witness for C6 on the WKT example of the spec. -/
theorem parseWKTPolygon_error_characterization_witness :
    (polygonMatch
        (stripSRID (jsToUpper "POLYGON ((10 20, 30 40, 10 20))".toList)) =
      some "10 20, 30 40, 10 20".toList) ∧
    ∃ coords, parseWKTPolygon "POLYGON ((10 20, 30 40, 10 20))" = some coords ∧
      coords.length = (splitOnComma "10 20, 30 40, 10 20".toList).length := by
  refine ⟨by decide, ?_⟩
  obtain ⟨coords, hc, hlen, _⟩ :=
    (parseWKTPolygon_error_characterization "POLYGON ((10 20, 30 40, 10 20))").2
      "10 20, 30 40, 10 20".toList (by decide) (by decide)
  exact ⟨coords, hc, hlen⟩

/-! Character classes and string-structure lemmas for the multi-ring claim. -/

lemma ringChar_toNat {c : Char} (h : ringChar c = true) :
    (48 ≤ c.toNat ∧ c.toNat ≤ 57) ∨ c.toNat = 45 ∨ c.toNat = 46 ∨
      c.toNat = 32 ∨ c.toNat = 44 := of_decide_eq_true h

lemma toUpper_eq_self_of_toNat_lt {c : Char} (h : c.toNat < 97) :
    c.toUpper = c := by
  simp only [Char.toUpper]
  rw [if_neg]
  rintro ⟨h1, _⟩
  omega

lemma ringChar_toUpper {c : Char} (h : ringChar c = true) : c.toUpper = c := by
  have h' := ringChar_toNat h
  apply toUpper_eq_self_of_toNat_lt
  omega

lemma ne_of_toNat_ne {c d : Char} (h : c.toNat ≠ d.toNat) : c ≠ d :=
  fun he => h (he ▸ rfl)

lemma ringChar_ne_S {c : Char} (h : ringChar c = true) : c ≠ 'S' := by
  have h' := ringChar_toNat h
  apply ne_of_toNat_ne
  have : ('S' : Char).toNat = 83 := by decide
  omega

lemma ringChar_ne_rparen {c : Char} (h : ringChar c = true) : c ≠ ')' := by
  have h' := ringChar_toNat h
  apply ne_of_toNat_ne
  have : (')' : Char).toNat = 41 := by decide
  omega

lemma ringChar_dotMatches {c : Char} (h : ringChar c = true) :
    dotMatches c = true := by
  have h' := ringChar_toNat h
  have h10 : c ≠ '\n' := by
    apply ne_of_toNat_ne
    have : ('\n' : Char).toNat = 10 := by decide
    omega
  have h13 : c ≠ '\r' := by
    apply ne_of_toNat_ne
    have : ('\r' : Char).toNat = 13 := by decide
    omega
  have h28 : c ≠ ' ' := by
    apply ne_of_toNat_ne
    have : (' ' : Char).toNat = 8232 := by decide
    omega
  have h29 : c ≠ ' ' := by
    apply ne_of_toNat_ne
    have : (' ' : Char).toNat = 8233 := by decide
    omega
  simp [dotMatches, h10, h13, h28, h29]

lemma jsToUpper_eq_self {cs : List Char} (h : ∀ c ∈ cs, c.toUpper = c) :
    jsToUpper cs = cs :=
  (List.map_congr_left h).trans (List.map_id cs)

lemma stripSRID_eq_self {cs : List Char} (h : ∀ c ∈ cs, c ≠ 'S') :
    stripSRID cs = cs := by
  induction cs with
  | nil => rfl
  | cons c cs ih =>
    have hc : c ≠ 'S' := h c (List.mem_cons_self c cs)
    have hmatch : sridMatchLen (c :: cs) = none := by
      simp [sridMatchLen, dropPrefixChars, hc]
    simp only [stripSRID, hmatch]
    exact congrArg (c :: ·) (ih fun x hx => h x (List.mem_cons_of_mem c hx))

lemma polygonMatch_of_matchAt {c : Char} {cs : List Char} {x : List Char}
    (h : polygonMatchAt (c :: cs) = some x) :
    polygonMatch (c :: cs) = some x := by
  simp [polygonMatch, h, Option.orElse]

lemma captureUntilParens_append (A rest : List Char)
    (hA : ∀ c ∈ A, c ≠ ')' ∧ dotMatches c = true) :
    captureUntilParens (A ++ rest) = (captureUntilParens rest).map (A ++ ·) := by
  induction A with
  | nil => cases hr : captureUntilParens rest <;> simp [hr]
  | cons c A ih =>
    obtain ⟨hc, hd⟩ := hA c (List.mem_cons_self c A)
    have ih' := ih fun x hx => hA x (List.mem_cons_of_mem c hx)
    simp only [List.cons_append, captureUntilParens]
    rw [if_neg (fun hand => hc hand.1), if_pos hd]
    show (captureUntilParens (A ++ rest)).map (c :: ·) = _
    rw [ih']
    cases hr : captureUntilParens rest <;> simp [hr]

lemma captureUntilParens_close (rest : List Char) :
    captureUntilParens (')' :: ')' :: rest) = some [] := by
  simp [captureUntilParens]

lemma captureUntilParens_step {c : Char} {cs : List Char}
    (hne : ¬ (c = ')' ∧ cs.head? = some ')')) (hd : dotMatches c = true) :
    captureUntilParens (c :: cs) = (captureUntilParens cs).map (c :: ·) := by
  simp only [captureUntilParens]
  rw [if_neg hne, if_pos hd]

lemma splitOnComma_ne_nil (cs : List Char) : splitOnComma cs ≠ [] := by
  induction cs with
  | nil => simp [splitOnComma]
  | cons c cs ih =>
    by_cases h : c = ','
    · simp [splitOnComma, h]
    · simp only [splitOnComma, if_neg h]
      cases hs : splitOnComma cs with
      | nil => simp
      | cons t ts => simp

lemma splitOnComma_append (A B : List Char) :
    splitOnComma (A ++ ',' :: B) = splitOnComma A ++ splitOnComma B := by
  induction A with
  | nil => simp [splitOnComma]
  | cons c A ih =>
    by_cases h : c = ','
    · subst h
      simp [splitOnComma, ih]
    · cases hs : splitOnComma A with
      | nil => exact absurd hs (splitOnComma_ne_nil A)
      | cons t ts =>
        have hl : splitOnComma (c :: (A ++ ',' :: B)) =
            (c :: t) :: (ts ++ splitOnComma B) := by
          simp only [splitOnComma, if_neg h, ih, hs, List.cons_append]
        have hr : splitOnComma (c :: A) = (c :: t) :: ts := by
          simp only [splitOnComma, if_neg h, hs]
        rw [List.cons_append, hl, hr]
        simp

lemma splitOnComma_cons_ne {c : Char} (cs : List Char) (h : c ≠ ',') :
    ∃ t ts, splitOnComma cs = t :: ts ∧
      splitOnComma (c :: cs) = (c :: t) :: ts := by
  cases hs : splitOnComma cs with
  | nil => exact absurd hs (splitOnComma_ne_nil cs)
  | cons t ts =>
    refine ⟨t, ts, rfl, ?_⟩
    simp [splitOnComma, h, hs]

lemma jsNum?_open_paren (tok : List Char) : jsNum? ('(' :: tok) = none := rfl

lemma dropWhile_append_singleton {p : Char → Bool} {c : Char}
    (hc : p c = false) (A : List Char) :
    (A ++ [c]).dropWhile p = A.dropWhile p ++ [c] := by
  induction A with
  | nil => simp [List.dropWhile, hc]
  | cons a A ih =>
    by_cases h : p a
    · simp [List.dropWhile_cons, h, ih]
    · simp [List.dropWhile_cons, h]

lemma jsTrim_cons_keep {c : Char} (hc : c.isWhitespace = false)
    (t : List Char) : ∃ t', jsTrim (c :: t) = c :: t' := by
  unfold jsTrim
  rw [List.dropWhile_cons, hc]
  simp only [Bool.false_eq_true, if_false, List.reverse_cons]
  rw [dropWhile_append_singleton hc]
  rw [List.reverse_append]
  exact ⟨_, rfl⟩

lemma splitWsAux_some (acc t : List Char) :
    ∃ tok toks, splitWsAux (some acc) t = (acc.reverse ++ tok) :: toks := by
  induction t generalizing acc with
  | nil => exact ⟨[], [], by simp [splitWsAux]⟩
  | cons c t ih =>
    by_cases h : c.isWhitespace
    · exact ⟨[], splitWsAux none t, by simp [splitWsAux, h]⟩
    · obtain ⟨tok, toks, htk⟩ := ih (c :: acc)
      exact ⟨c :: tok, toks, by simp [splitWsAux, h, htk]⟩

lemma parseCoordPair_open_paren (t : List Char) :
    parseCoordPair ('(' :: t) = none := by
  obtain ⟨t', ht⟩ :=
    jsTrim_cons_keep (c := '(') (by decide) t
  obtain ⟨tok, toks, hs⟩ := splitWsAux_some ['('] t'
  have hsw : splitWs ('(' :: t') = ('(' :: tok) :: toks := by
    have hstep : splitWs ('(' :: t') = splitWsAux (some ['(']) t' := rfl
    rw [hstep, hs]
    rfl
  simp only [parseCoordPair, ht, hsw, jsNum?_open_paren]

/-- C10: any WKT polygon text with a second ring is rejected: the non-greedy
pattern's capture spans both rings (`r1 ++ "),(" ++ r2`), so the
ring-separating parentheses land inside coordinate tokens, the `(`-prefixed
token fails numeric parsing, and the whole parse returns null — WKT polygons
with interior rings (holes) are never parsed, not parsed with holes
dropped.  `r1`, `r2` are the two ring bodies, built from digits, `-`, `.`,
space and comma. -/
theorem parseWKTPolygon_rejects_multi_ring (r1 r2 : List Char)
    (h1 : ∀ c ∈ r1, ringChar c = true) (h2 : ∀ c ∈ r2, ringChar c = true) :
    polygonMatch
        (stripSRID (jsToUpper
          ("POLYGON ((".toList ++ r1 ++ "),(".toList ++ r2 ++ "))".toList))) =
      some (r1 ++ ')' :: ',' :: '(' :: r2) ∧
    parseWKTPolygon
        ⟨"POLYGON ((".toList ++ r1 ++ "),(".toList ++ r2 ++ "))".toList⟩ =
      none := by
  have hfix : ∀ c ∈ ("POLYGON ((".toList ++ r1 ++ "),(".toList ++ r2 ++
      "))".toList), c.toUpper = c := by
    have hP : ∀ c ∈ "POLYGON ((".toList, c.toUpper = c := by decide
    have hM : ∀ c ∈ "),(".toList, c.toUpper = c := by decide
    have hE : ∀ c ∈ "))".toList, c.toUpper = c := by decide
    intro c hc
    simp only [List.mem_append] at hc
    rcases hc with ((((hc | hc) | hc) | hc) | hc)
    · exact hP c hc
    · exact ringChar_toUpper (h1 c hc)
    · exact hM c hc
    · exact ringChar_toUpper (h2 c hc)
    · exact hE c hc
  have hnoS : ∀ c ∈ ("POLYGON ((".toList ++ r1 ++ "),(".toList ++ r2 ++
      "))".toList), c ≠ 'S' := by
    have hP : ∀ c ∈ "POLYGON ((".toList, c ≠ 'S' := by decide
    have hM : ∀ c ∈ "),(".toList, c ≠ 'S' := by decide
    have hE : ∀ c ∈ "))".toList, c ≠ 'S' := by decide
    intro c hc
    simp only [List.mem_append] at hc
    rcases hc with ((((hc | hc) | hc) | hc) | hc)
    · exact hP c hc
    · exact ringChar_ne_S (h1 c hc)
    · exact hM c hc
    · exact ringChar_ne_S (h2 c hc)
    · exact hE c hc
  have hup := jsToUpper_eq_self hfix
  have hstrip := stripSRID_eq_self hnoS
  have hshape : "POLYGON ((".toList ++ r1 ++ "),(".toList ++ r2 ++
      "))".toList =
      'P' :: 'O' :: 'L' :: 'Y' :: 'G' :: 'O' :: 'N' :: ' ' :: '(' :: '(' ::
        (r1 ++ ')' :: ',' :: '(' :: (r2 ++ [')', ')'])) := by
    have h10 : "POLYGON ((".toList =
        ['P', 'O', 'L', 'Y', 'G', 'O', 'N', ' ', '(', '('] := by decide
    have h3 : "),(".toList = [')', ',', '('] := by decide
    have h2' : "))".toList = [')', ')'] := by decide
    rw [h10, h3, h2']
    simp [List.append_assoc]
  have hcap : captureUntilParens
      (r1 ++ ')' :: ',' :: '(' :: (r2 ++ [')', ')'])) =
      some (r1 ++ ')' :: ',' :: '(' :: r2) := by
    rw [captureUntilParens_append r1 _
      (fun c hc => ⟨ringChar_ne_rparen (h1 c hc),
        ringChar_dotMatches (h1 c hc)⟩)]
    rw [captureUntilParens_step (c := ')')
      (by rintro ⟨-, hh⟩; simp at hh) (by decide)]
    rw [captureUntilParens_step (c := ',')
      (by rintro ⟨hh, -⟩; exact absurd hh (by decide)) (by decide)]
    rw [captureUntilParens_step (c := '(')
      (by rintro ⟨hh, -⟩; exact absurd hh (by decide)) (by decide)]
    rw [captureUntilParens_append r2 _
      (fun c hc => ⟨ringChar_ne_rparen (h2 c hc),
        ringChar_dotMatches (h2 c hc)⟩)]
    rw [captureUntilParens_close]
    simp
  have hAt : polygonMatchAt
      ('P' :: 'O' :: 'L' :: 'Y' :: 'G' :: 'O' :: 'N' :: ' ' :: '(' :: '(' ::
        (r1 ++ ')' :: ',' :: '(' :: (r2 ++ [')', ')']))) =
      captureUntilParens (r1 ++ ')' :: ',' :: '(' :: (r2 ++ [')', ')'])) :=
    rfl
  have hmatch : polygonMatch
      (stripSRID (jsToUpper
        ("POLYGON ((".toList ++ r1 ++ "),(".toList ++ r2 ++ "))".toList))) =
      some (r1 ++ ')' :: ',' :: '(' :: r2) := by
    rw [hup, hstrip, hshape]
    exact polygonMatch_of_matchAt (hAt.trans hcap)
  refine ⟨hmatch, ?_⟩
  simp only [parseWKTPolygon]
  have htl : (⟨"POLYGON ((".toList ++ r1 ++ "),(".toList ++ r2 ++
      "))".toList⟩ : String).toList =
      "POLYGON ((".toList ++ r1 ++ "),(".toList ++ r2 ++ "))".toList := rfl
  rw [htl, hmatch]
  apply (mapOrNone_eq_none_iff _ _).mpr
  have hsplit : splitOnComma (r1 ++ ')' :: ',' :: '(' :: r2) =
      splitOnComma (r1 ++ [')']) ++ splitOnComma ('(' :: r2) := by
    have hre : r1 ++ ')' :: ',' :: '(' :: r2 =
        (r1 ++ [')']) ++ ',' :: ('(' :: r2) := by simp
    rw [hre, splitOnComma_append]
  obtain ⟨t, ts, _, hsp2⟩ := splitOnComma_cons_ne (c := '(') r2 (by decide)
  refine ⟨'(' :: t, ?_, parseCoordPair_open_paren t⟩
  rw [hsplit, hsp2]
  exact List.mem_append_right _ (List.mem_cons_self _ _)

/-- Witness for C10 at the two-ring example. -/
theorem parseWKTPolygon_rejects_multi_ring_witness :
    (∀ c ∈ "0 0, 1 0, 1 1, 0 0".toList, ringChar c = true) ∧
    parseWKTPolygon "POLYGON ((0 0, 1 0, 1 1, 0 0),(2 2, 3 3, 2 2))" =
      none := by
  have he : (⟨"POLYGON ((".toList ++ "0 0, 1 0, 1 1, 0 0".toList ++
      "),(".toList ++ "2 2, 3 3, 2 2".toList ++ "))".toList⟩ : String) =
      "POLYGON ((0 0, 1 0, 1 1, 0 0),(2 2, 3 3, 2 2))" := by decide
  refine ⟨by decide, ?_⟩
  rw [← he]
  exact (parseWKTPolygon_rejects_multi_ring "0 0, 1 0, 1 1, 0 0".toList
    "2 2, 3 3, 2 2".toList (by decide) (by decide)).2

/-! Round-trip (C2): the serializer's decimal rendering parses back to the
same rational. -/

lemma numChar_ringChar {c : Char} (h : numChar c = true) : ringChar c = true := by
  have h' := of_decide_eq_true h
  exact decide_eq_true (by omega)

lemma digitChar_toNat {d : Nat} (hd : d < 10) :
    (Char.ofNat (48 + d)).toNat = 48 + d := by
  interval_cases d <;> decide

lemma digitChar_isDigit {d : Nat} (hd : d < 10) :
    (Char.ofNat (48 + d)).isDigit = true := by
  interval_cases d <;> decide

lemma natDigitChars_digit {n : Nat} {c : Char} (hc : c ∈ natDigitChars n) :
    (48 ≤ c.toNat ∧ c.toNat ≤ 57) ∧ c.isDigit = true := by
  unfold natDigitChars at hc
  by_cases h : n = 0
  · rw [if_pos h] at hc
    have : c = '0' := List.mem_singleton.mp hc
    subst this
    exact ⟨by decide, by decide⟩
  · rw [if_neg h] at hc
    obtain ⟨d, hd, rfl⟩ := List.mem_map.mp hc
    have hd10 : d < 10 :=
      Nat.digits_lt_base (by norm_num) (List.mem_reverse.mp hd)
    refine ⟨?_, digitChar_isDigit hd10⟩
    rw [digitChar_toNat hd10]
    omega

lemma natDigitChars_ne_nil (n : Nat) : natDigitChars n ≠ [] := by
  unfold natDigitChars
  by_cases h : n = 0
  · simp [h]
  · rw [if_neg h]
    simp [Nat.digits_ne_nil_iff_ne_zero, h]

lemma digitsVal_replicate_zero (m : Nat) (ds : List Char) :
    digitsVal (List.replicate m '0' ++ ds) = digitsVal ds := by
  induction m with
  | zero => rfl
  | succ m ih =>
    have h0 : (10 : Nat) * 0 + ('0'.toNat - 48) = 0 := by decide
    simp only [digitsVal, List.replicate_succ, List.cons_append,
      List.foldl_cons, h0] at *
    exact ih

lemma foldl_reverse_ofDigits (L : List ℕ) :
    L.reverse.foldl (fun a d => 10 * a + d) 0 = Nat.ofDigits 10 L := by
  induction L with
  | nil => rfl
  | cons d L ih =>
    rw [List.reverse_cons, List.foldl_append, ih, Nat.ofDigits_cons]
    simp only [List.foldl_cons, List.foldl_nil]
    omega

lemma foldl_digit_chars (L : List ℕ) (hL : ∀ d ∈ L, d < 10) (a : Nat) :
    L.foldl (fun a d => 10 * a + ((Char.ofNat (48 + d)).toNat - 48)) a =
      L.foldl (fun a d => 10 * a + d) a := by
  induction L generalizing a with
  | nil => rfl
  | cons d L ih =>
    have hd := hL d (List.mem_cons_self d L)
    rw [List.foldl_cons, List.foldl_cons, digitChar_toNat hd,
      Nat.add_sub_cancel_left]
    exact ih (fun x hx => hL x (List.mem_cons_of_mem d hx)) _

lemma digitsVal_natDigitChars (n : Nat) : digitsVal (natDigitChars n) = n := by
  unfold natDigitChars
  by_cases h : n = 0
  · subst h; decide
  · rw [if_neg h]
    unfold digitsVal
    rw [List.foldl_map]
    rw [foldl_digit_chars _
      (fun d hd => Nat.digits_lt_base (by norm_num) (List.mem_reverse.mp hd))]
    rw [foldl_reverse_ofDigits, Nat.ofDigits_digits]

lemma takeWhile_append_of_all {p : Char → Bool} (A B : List Char)
    (hA : ∀ c ∈ A, p c = true) :
    (A ++ B).takeWhile p = A ++ B.takeWhile p := by
  induction A with
  | nil => rfl
  | cons a A ih =>
    rw [List.cons_append, List.takeWhile_cons,
      if_pos (hA a (List.mem_cons_self a A)),
      ih fun c hc => hA c (List.mem_cons_of_mem a hc), List.cons_append]

lemma takeWhile_eq_self_of_all {p : Char → Bool} (A : List Char)
    (hA : ∀ c ∈ A, p c = true) : A.takeWhile p = A := by
  have h := takeWhile_append_of_all A [] hA
  simpa using h

lemma padded_length (n k : Nat) : k + 1 ≤ (paddedDigits n k).length := by
  rw [paddedDigits, List.length_append, List.length_replicate]
  have h1 : 1 ≤ (natDigitChars n).length :=
    List.length_pos.mpr (natDigitChars_ne_nil n)
  omega

lemma padded_mem_digit {n k : Nat} {c : Char} (hc : c ∈ paddedDigits n k) :
    48 ≤ c.toNat ∧ c.toNat ≤ 57 := by
  rw [paddedDigits] at hc
  rcases List.mem_append.mp hc with hc | hc
  · have hc0 : c = '0' := List.eq_of_mem_replicate hc
    subst hc0
    exact ⟨by decide, by decide⟩
  · exact (natDigitChars_digit hc).1

lemma digit_isDigit {c : Char} (h : 48 ≤ c.toNat ∧ c.toNat ≤ 57) :
    c.isDigit = true := by
  have h1 : c.val.toNat = c.toNat := rfl
  simp only [Char.isDigit, Bool.and_eq_true, decide_eq_true_eq]
  constructor
  · show (48 : UInt32) ≤ c.val
    change (48 : UInt32).toNat ≤ c.val.toNat
    simpa using h.1
  · show c.val ≤ (57 : UInt32)
    change c.val.toNat ≤ (57 : UInt32).toNat
    simpa using h.2

lemma renderDec_head_digit (n k : Nat) :
    ∃ c rest, renderDec n k = c :: rest ∧ 48 ≤ c.toNat ∧ c.toNat ≤ 57 := by
  unfold renderDec
  by_cases h : k = 0
  · rw [if_pos h]
    cases hd : natDigitChars n with
    | nil => exact absurd hd (natDigitChars_ne_nil n)
    | cons c rest =>
      exact ⟨c, rest, rfl,
        (natDigitChars_digit (hd ▸ List.mem_cons_self c rest)).1⟩
  · rw [if_neg h]
    have hlen := padded_length n k
    cases hA : (paddedDigits n k).take ((paddedDigits n k).length - k) with
    | nil =>
      exfalso
      have hALen := congrArg List.length hA
      rw [List.length_take] at hALen
      simp at hALen
      omega
    | cons c A' =>
      refine ⟨c, _, rfl, ?_⟩
      have hc : c ∈ paddedDigits n k :=
        List.take_subset _ _ (hA ▸ List.mem_cons_self c A')
      exact padded_mem_digit hc

lemma renderDec_numChar {n k : Nat} {c : Char} (hc : c ∈ renderDec n k) :
    numChar c = true := by
  unfold renderDec at hc
  by_cases h : k = 0
  · rw [if_pos h] at hc
    exact decide_eq_true (Or.inl (natDigitChars_digit hc).1)
  · rw [if_neg h] at hc
    rcases List.mem_append.mp hc with hc | hc
    · exact decide_eq_true (Or.inl (padded_mem_digit (List.take_subset _ _ hc)))
    · rcases List.mem_cons.mp hc with rfl | hc
      · exact decide_eq_true (Or.inr (Or.inr (by decide)))
      · exact decide_eq_true (Or.inl (padded_mem_digit (List.drop_subset _ _ hc)))

lemma parseDecimalBody_render (n k : Nat) :
    parseDecimalBody (renderDec n k) = some ((n : ℚ) / 10 ^ k) := by
  by_cases hk : k = 0
  · subst hk
    unfold renderDec
    rw [if_pos rfl]
    have hall : ∀ c ∈ natDigitChars n, Char.isDigit c = true :=
      fun c hc => (natDigitChars_digit hc).2
    have htw : (natDigitChars n).takeWhile Char.isDigit = natDigitChars n :=
      takeWhile_eq_self_of_all _ hall
    simp only [parseDecimalBody, htw, List.drop_length, List.head?_nil]
    rw [if_neg (by simp)]
    rw [if_neg (by simpa [List.isEmpty_iff] using natDigitChars_ne_nil n)]
    simp only [parseExpPart, Option.map_some', Option.some.injEq]
    rw [digitsVal_natDigitChars]
    unfold applyExp
    norm_num
  · have hplen := padded_length n k
    have hpaddig : ∀ c ∈ paddedDigits n k, Char.isDigit c = true :=
      fun c hc => digit_isDigit (padded_mem_digit hc)
    have hAall : ∀ c ∈ (paddedDigits n k).take ((paddedDigits n k).length - k),
        Char.isDigit c = true :=
      fun c hc => hpaddig c (List.take_subset _ _ hc)
    have hBall : ∀ c ∈ (paddedDigits n k).drop ((paddedDigits n k).length - k),
        Char.isDigit c = true :=
      fun c hc => hpaddig c (List.drop_subset _ _ hc)
    have hAlen : ((paddedDigits n k).take
        ((paddedDigits n k).length - k)).length =
        (paddedDigits n k).length - k := by
      rw [List.length_take]
      omega
    have hBlen : ((paddedDigits n k).drop
        ((paddedDigits n k).length - k)).length = k := by
      rw [List.length_drop]
      omega
    have hAne : ¬ ((paddedDigits n k).take
        ((paddedDigits n k).length - k)).isEmpty = true := by
      rw [List.isEmpty_iff]
      intro hnil
      have hl := congrArg List.length hnil
      rw [hAlen] at hl
      simp at hl
      omega
    have htw : (((paddedDigits n k).take ((paddedDigits n k).length - k)) ++
        '.' :: ((paddedDigits n k).drop ((paddedDigits n k).length - k))
          ).takeWhile Char.isDigit =
        (paddedDigits n k).take ((paddedDigits n k).length - k) := by
      rw [takeWhile_append_of_all _ _ hAall, List.takeWhile_cons,
        if_neg (by decide)]
      simp
    have hdl : (((paddedDigits n k).take ((paddedDigits n k).length - k)) ++
        '.' :: ((paddedDigits n k).drop ((paddedDigits n k).length - k))
          ).drop (((paddedDigits n k).take
            ((paddedDigits n k).length - k)).length) =
        '.' :: ((paddedDigits n k).drop ((paddedDigits n k).length - k)) :=
      List.drop_left _ _
    unfold renderDec
    rw [if_neg hk]
    simp only [parseDecimalBody, htw, hdl, List.head?_cons,
      List.tail_cons, takeWhile_eq_self_of_all _ hBall, List.drop_length,
      Option.some.injEq, if_true, eq_self_iff_true]
    rw [if_neg (fun hand => hAne hand.1)]
    simp only [parseExpPart, Option.map_some', Option.some.injEq]
    have hdv : digitsVal (paddedDigits n k) = n := by
      rw [paddedDigits, digitsVal_replicate_zero, digitsVal_natDigitChars]
    rw [List.take_append_drop, hdv, hBlen]
    unfold applyExp
    rw [zero_sub, zpow_neg, zpow_natCast, div_eq_mul_inv]

lemma decExp_spec {d k : Nat} (h : decExp d = some k) :
    d = 2 ^ padMult 2 d * 5 ^ padMult 5 d ∧
      k = max (padMult 2 d) (padMult 5 d) := by
  unfold decExp at h
  by_cases hc : d = 2 ^ padMult 2 d * 5 ^ padMult 5 d
  · rw [if_pos hc] at h
    refine ⟨hc, ?_⟩
    injection h with h
    exact h.symm
  · rw [if_neg hc] at h
    cases h

lemma decExp_dvd {d k : Nat} (h : decExp d = some k) : d ∣ 10 ^ k := by
  obtain ⟨hd, hk⟩ := decExp_spec h
  have h2 : 2 ^ padMult 2 d ∣ 2 ^ k := pow_dvd_pow 2 (by omega)
  have h5 : 5 ^ padMult 5 d ∣ 5 ^ k := pow_dvd_pow 5 (by omega)
  calc d = 2 ^ padMult 2 d * 5 ^ padMult 5 d := hd
    _ ∣ 2 ^ k * 5 ^ k := mul_dvd_mul h2 h5
    _ = 10 ^ k := by rw [← Nat.mul_pow]

lemma jsNum?_eq_parseDecimalBody {c : Char} {rest : List Char}
    (hc : 48 ≤ c.toNat ∧ c.toNat ≤ 57)
    (hrest : ∀ x ∈ rest, numChar x = true) :
    jsNum? (c :: rest) = parseDecimalBody (c :: rest) := by
  have hplus : c ≠ '+' := ne_of_toNat_ne (by
    have : ('+' : Char).toNat = 43 := by decide
    omega)
  have hminus : c ≠ '-' := ne_of_toNat_ne (by
    have : ('-' : Char).toNat = 45 := by decide
    omega)
  have hhead : ∀ y : Char, rest.head? = some y → numChar y = true := by
    intro y hy
    cases hr : rest with
    | nil => rw [hr] at hy; cases hy
    | cons x xs =>
      rw [hr, List.head?_cons] at hy
      injection hy with hy
      exact hy ▸ hrest x (hr ▸ List.mem_cons_self x xs)
  have hX : ¬(c = '0' ∧ rest.head? = some 'X') := by
    rintro ⟨-, hh⟩
    have := of_decide_eq_true (hhead 'X' hh)
    have hXv : ('X' : Char).toNat = 88 := by decide
    omega
  have hO : ¬(c = '0' ∧ rest.head? = some 'O') := by
    rintro ⟨-, hh⟩
    have := of_decide_eq_true (hhead 'O' hh)
    have hOv : ('O' : Char).toNat = 79 := by decide
    omega
  have hB : ¬(c = '0' ∧ rest.head? = some 'B') := by
    rintro ⟨-, hh⟩
    have := of_decide_eq_true (hhead 'B' hh)
    have hBv : ('B' : Char).toNat = 66 := by decide
    omega
  simp only [jsNum?, if_neg hplus, if_neg hminus, if_neg hX, if_neg hO,
    if_neg hB]

/-- The rendered decimal of any rational with `2^a·5^b` denominator parses
back (via the `Number` model) to exactly that rational. -/
lemma jsNum?_ratToDecChars (q : ℚ) {k : Nat} (h : decExp q.den = some k) :
    jsNum? (ratToDecChars q) = some q := by
  have hdvd := decExp_dvd h
  have hden0 : (q.den : ℚ) ≠ 0 := by
    exact_mod_cast q.den_nz
  have hten : (10 : ℚ) ^ k ≠ 0 := by positivity
  have hval : ((q.num.natAbs * (10 ^ k / q.den) : ℕ) : ℚ) / 10 ^ k =
      (q.num.natAbs : ℚ) / q.den := by
    rw [Nat.cast_mul, Nat.cast_div hdvd hden0]
    push_cast
    field_simp
    ring
  have hrw : ratToDecChars q =
      (if q < 0 then ['-'] else []) ++
        renderDec (q.num.natAbs * (10 ^ k / q.den)) k := by
    unfold ratToDecChars
    rw [h]
  rw [hrw]
  by_cases hneg : q < 0
  · rw [if_pos hneg, List.singleton_append]
    have hj : jsNum? ('-' :: renderDec (q.num.natAbs * (10 ^ k / q.den)) k) =
        (parseDecimalBody (renderDec (q.num.natAbs * (10 ^ k / q.den)) k)).map
          Neg.neg := by
      simp only [jsNum?, if_neg (by decide : ¬('-' : Char) = '+'),
        eq_self_iff_true, if_true]
    rw [hj, parseDecimalBody_render, Option.map_some', Option.some.injEq]
    rw [hval]
    have hnum : (q.num.natAbs : ℚ) = -(q.num : ℚ) := by
      rw [Int.cast_natAbs, abs_of_neg (Rat.num_neg.mpr hneg), Int.cast_neg]
    rw [hnum, neg_div, neg_neg, Rat.num_div_den]
  · rw [if_neg hneg]
    rw [List.nil_append]
    obtain ⟨c, rest, hcr, hcd⟩ :=
      renderDec_head_digit (q.num.natAbs * (10 ^ k / q.den)) k
    rw [hcr, jsNum?_eq_parseDecimalBody hcd
      (fun x hx => renderDec_numChar (hcr ▸ List.mem_cons_of_mem c hx)),
      ← hcr, parseDecimalBody_render, Option.some.injEq, hval]
    have hnum : (q.num.natAbs : ℚ) = (q.num : ℚ) := by
      rw [Int.cast_natAbs,
        abs_of_nonneg (Rat.num_nonneg.mpr (not_lt.mp hneg))]
    rw [hnum, Rat.num_div_den]

lemma numChar_not_ws {c : Char} (h : numChar c = true) :
    c.isWhitespace = false := by
  have h' := of_decide_eq_true h
  have h32 : c ≠ ' ' := ne_of_toNat_ne (by
    have : (' ' : Char).toNat = 32 := by decide
    omega)
  have h9 : c ≠ '\t' := ne_of_toNat_ne (by
    have : ('\t' : Char).toNat = 9 := by decide
    omega)
  have h13 : c ≠ '\r' := ne_of_toNat_ne (by
    have : ('\r' : Char).toNat = 13 := by decide
    omega)
  have h10 : c ≠ '\n' := ne_of_toNat_ne (by
    have : ('\n' : Char).toNat = 10 := by decide
    omega)
  simp [Char.isWhitespace, h32, h9, h13, h10]

lemma ratToDecChars_numChar {q : ℚ} {k : Nat} (h : decExp q.den = some k)
    {c : Char} (hc : c ∈ ratToDecChars q) : numChar c = true := by
  unfold ratToDecChars at hc
  rw [h] at hc
  rcases List.mem_append.mp hc with hc | hc
  · by_cases hneg : q < 0
    · rw [if_pos hneg] at hc
      have : c = '-' := List.mem_singleton.mp hc
      subst this
      exact decide_eq_true (Or.inr (Or.inl (by decide)))
    · rw [if_neg hneg] at hc
      cases hc
  · exact renderDec_numChar hc

lemma ratToDecChars_ne_nil {q : ℚ} {k : Nat} (h : decExp q.den = some k) :
    ratToDecChars q ≠ [] := by
  have hrw : ratToDecChars q =
      (if q < 0 then ['-'] else []) ++
        renderDec (q.num.natAbs * (10 ^ k / q.den)) k := by
    unfold ratToDecChars
    rw [h]
  rw [hrw]
  obtain ⟨c, rest, hcr, -⟩ :=
    renderDec_head_digit (q.num.natAbs * (10 ^ k / q.den)) k
  rw [hcr]
  cases hs : (if q < 0 then ['-'] else []) <;> simp

lemma dropWhile_eq_self_of_head {p : Char → Bool} (l : List Char)
    (h : ∀ c, l.head? = some c → p c = false) : l.dropWhile p = l := by
  cases l with
  | nil => rfl
  | cons c cs =>
    rw [List.dropWhile_cons, h c rfl]
    simp

lemma getLast?_mem {l : List Char} {c : Char} (h : l.getLast? = some c) :
    c ∈ l := by
  rw [← List.head?_reverse] at h
  have : c ∈ l.reverse := by
    cases hr : l.reverse with
    | nil => rw [hr] at h; cases h
    | cons d ds =>
      rw [hr, List.head?_cons] at h
      injection h with h
      exact h ▸ List.mem_cons_self d ds
  exact List.mem_reverse.mp this

lemma getLast?_append_cons (x : List Char) (d : Char) (y : List Char) :
    (x ++ d :: y).getLast? = (d :: y).getLast? := by
  induction x with
  | nil => rfl
  | cons a x ih =>
    rw [List.cons_append]
    have h2 : (a :: (x ++ d :: y)).getLast? = (x ++ d :: y).getLast? := by
      cases hx : x ++ d :: y with
      | nil => exact absurd hx (by simp)
      | cons e es => exact List.getLast?_cons_cons
    rw [h2, ih]

lemma jsTrim_eq_self {l : List Char}
    (hh : ∀ c, l.head? = some c → c.isWhitespace = false)
    (hl : ∀ c, l.getLast? = some c → c.isWhitespace = false) :
    jsTrim l = l := by
  unfold jsTrim
  rw [dropWhile_eq_self_of_head l hh]
  rw [dropWhile_eq_self_of_head l.reverse
    (fun c hc => hl c (by rwa [List.head?_reverse] at hc))]
  exact List.reverse_reverse l

lemma splitWsAux_run (x : List Char) (rest acc : List Char)
    (hx : ∀ c ∈ x, c.isWhitespace = false) :
    splitWsAux (some acc) (x ++ rest) =
      splitWsAux (some (x.reverse ++ acc)) rest := by
  induction x generalizing acc with
  | nil => simp
  | cons c x ih =>
    rw [List.cons_append]
    show splitWsAux (some acc) (c :: (x ++ rest)) = _
    simp only [splitWsAux, hx c (List.mem_cons_self c x), Bool.false_eq_true,
      if_false]
    rw [ih _ fun d hd => hx d (List.mem_cons_of_mem c hd)]
    congr 1
    simp

lemma splitWs_pair (x y : List Char)
    (hx : ∀ c ∈ x, c.isWhitespace = false)
    (hy : ∀ c ∈ y, c.isWhitespace = false) (hyne : y ≠ []) :
    splitWs (x ++ ' ' :: y) = [x, y] := by
  unfold splitWs
  rw [splitWsAux_run x _ [] hx, List.append_nil]
  have hstep : splitWsAux (some x.reverse) (' ' :: y) =
      x.reverse.reverse :: splitWsAux none y := by
    simp [splitWsAux]
  rw [hstep, List.reverse_reverse]
  cases y with
  | nil => exact absurd rfl hyne
  | cons d y' =>
    have hd : d.isWhitespace = false := hy d (List.mem_cons_self d y')
    have hstep2 : splitWsAux none (d :: y') = splitWsAux (some [d]) y' := by
      simp [splitWsAux, hd]
    rw [hstep2, ← List.append_nil y',
      splitWsAux_run y' [] [d]
        (fun c hc => hy c (List.mem_cons_of_mem d hc))]
    simp [splitWsAux, List.reverse_append]

/-- `parseCoordPair` on a serialized `lng lat` field recovers the pair,
swapped to `(lat, lng)`. -/
lemma parseCoordPair_render (qlng qlat : ℚ) {k1 k2 : Nat}
    (h1 : decExp qlng.den = some k1) (h2 : decExp qlat.den = some k2) :
    parseCoordPair (ratToDecChars qlng ++ ' ' :: ratToDecChars qlat) =
      some (qlat, qlng) := by
  have hxnum : ∀ c ∈ ratToDecChars qlng, numChar c = true :=
    fun c hc => ratToDecChars_numChar h1 hc
  have hynum : ∀ c ∈ ratToDecChars qlat, numChar c = true :=
    fun c hc => ratToDecChars_numChar h2 hc
  have hxws : ∀ c ∈ ratToDecChars qlng, c.isWhitespace = false :=
    fun c hc => numChar_not_ws (hxnum c hc)
  have hyws : ∀ c ∈ ratToDecChars qlat, c.isWhitespace = false :=
    fun c hc => numChar_not_ws (hynum c hc)
  have hxne := ratToDecChars_ne_nil h1
  have hyne := ratToDecChars_ne_nil h2
  have htrim : jsTrim (ratToDecChars qlng ++ ' ' :: ratToDecChars qlat) =
      ratToDecChars qlng ++ ' ' :: ratToDecChars qlat := by
    apply jsTrim_eq_self
    · intro c hc
      cases hx : ratToDecChars qlng with
      | nil => exact absurd hx hxne
      | cons a x' =>
        rw [hx, List.cons_append, List.head?_cons] at hc
        injection hc with hc
        exact hc ▸ hxws a (hx ▸ List.mem_cons_self a x')
    · intro c hc
      rw [getLast?_append_cons] at hc
      cases hy' : ratToDecChars qlat with
      | nil => exact absurd hy' hyne
      | cons b y' =>
        rw [hy', List.getLast?_cons_cons] at hc
        refine hyws c ?_
        rw [hy']
        exact getLast?_mem hc
  have hsplit := splitWs_pair _ _ hxws hyws hyne
  simp only [parseCoordPair, htrim, hsplit, jsNum?_ratToDecChars qlng h1,
    jsNum?_ratToDecChars qlat h2]

lemma numChar_ne_comma {c : Char} (h : numChar c = true) : c ≠ ',' := by
  have h' := of_decide_eq_true h
  exact ne_of_toNat_ne (by
    have : (',' : Char).toNat = 44 := by decide
    omega)

lemma splitOnComma_no_comma {A : List Char} (h : ∀ c ∈ A, c ≠ ',') :
    splitOnComma A = [A] := by
  induction A with
  | nil => rfl
  | cons c A ih =>
    have hc := h c (List.mem_cons_self c A)
    simp only [splitOnComma, if_neg hc,
      ih fun x hx => h x (List.mem_cons_of_mem c hx)]

lemma jsTrim_cons_space (t : List Char) : jsTrim (' ' :: t) = jsTrim t := by
  have hdw : (' ' :: t).dropWhile Char.isWhitespace =
      t.dropWhile Char.isWhitespace := by
    simp [List.dropWhile_cons]
  unfold jsTrim
  rw [hdw]

lemma parseCoordPair_cons_space (t : List Char) :
    parseCoordPair (' ' :: t) = parseCoordPair t := by
  unfold parseCoordPair
  rw [jsTrim_cons_space]

lemma token_no_comma {qlng qlat : ℚ} {k1 k2 : Nat}
    (h1 : decExp qlng.den = some k1) (h2 : decExp qlat.den = some k2) :
    ∀ c ∈ ratToDecChars qlng ++ ' ' :: ratToDecChars qlat, c ≠ ',' := by
  intro c hc
  rcases List.mem_append.mp hc with hc | hc
  · exact numChar_ne_comma (ratToDecChars_numChar h1 hc)
  · rcases List.mem_cons.mp hc with rfl | hc
    · decide
    · exact numChar_ne_comma (ratToDecChars_numChar h2 hc)

/-- Parsing the comma-split of the serialized coordinate list recovers every
pair, swapped from (lng, lat) to (lat, lng). -/
lemma mapOrNone_joinCoords (coords : List (ℚ × ℚ)) (hne : coords ≠ [])
    (hdec : ∀ p ∈ coords,
      (decExp p.1.den).isSome ∧ (decExp p.2.den).isSome) :
    mapOrNone parseCoordPair (splitOnComma (joinCoords coords)) =
      some (coords.map Prod.swap) := by
  induction coords with
  | nil => exact absurd rfl hne
  | cons p rest ih =>
    obtain ⟨k1, hk1⟩ := Option.isSome_iff_exists.mp
      (hdec p (List.mem_cons_self p rest)).1
    obtain ⟨k2, hk2⟩ := Option.isSome_iff_exists.mp
      (hdec p (List.mem_cons_self p rest)).2
    cases rest with
    | nil =>
      have hj : joinCoords [p] =
          ratToDecChars p.1 ++ ' ' :: ratToDecChars p.2 := rfl
      rw [hj, splitOnComma_no_comma (token_no_comma hk1 hk2)]
      simp [mapOrNone, parseCoordPair_render p.1 p.2 hk1 hk2, Prod.swap]
    | cons p2 rest2 =>
      have hj : joinCoords (p :: p2 :: rest2) =
          (ratToDecChars p.1 ++ ' ' :: ratToDecChars p.2) ++
            ',' :: (' ' :: joinCoords (p2 :: rest2)) := rfl
      rw [hj, splitOnComma_append,
        splitOnComma_no_comma (token_no_comma hk1 hk2)]
      obtain ⟨t, ts, hts, hsp⟩ :=
        splitOnComma_cons_ne (c := ' ') (joinCoords (p2 :: rest2)) (by decide)
      rw [hsp]
      have hih := ih (by simp)
        (fun x hx => hdec x (List.mem_cons_of_mem p hx))
      rw [hts] at hih
      have habs : mapOrNone parseCoordPair ((' ' :: t) :: ts) =
          mapOrNone parseCoordPair (t :: ts) := by
        simp only [mapOrNone, parseCoordPair_cons_space]
      have hfirst := parseCoordPair_render p.1 p.2 hk1 hk2
      rw [List.singleton_append]
      calc mapOrNone parseCoordPair
            ((ratToDecChars p.1 ++ ' ' :: ratToDecChars p.2) ::
              (' ' :: t) :: ts)
          = (mapOrNone parseCoordPair ((' ' :: t) :: ts)).map
              ((p.2, p.1) :: ·) := by
            simp [mapOrNone, hfirst]
        _ = (mapOrNone parseCoordPair (t :: ts)).map ((p.2, p.1) :: ·) := by
            rw [habs]
        _ = some ((p.2, p.1) :: (p2 :: rest2).map Prod.swap) := by
            rw [hih]
            rfl
        _ = some ((p :: p2 :: rest2).map Prod.swap) := by
            simp [Prod.swap]

lemma joinCoords_ringChar (coords : List (ℚ × ℚ))
    (hdec : ∀ p ∈ coords,
      (decExp p.1.den).isSome ∧ (decExp p.2.den).isSome) :
    ∀ c ∈ joinCoords coords, ringChar c = true := by
  induction coords with
  | nil => intro c hc; cases hc
  | cons p rest ih =>
    obtain ⟨k1, hk1⟩ := Option.isSome_iff_exists.mp
      (hdec p (List.mem_cons_self p rest)).1
    obtain ⟨k2, hk2⟩ := Option.isSome_iff_exists.mp
      (hdec p (List.mem_cons_self p rest)).2
    have htok : ∀ c ∈ ratToDecChars p.1 ++ ' ' :: ratToDecChars p.2,
        ringChar c = true := by
      intro c hc
      rcases List.mem_append.mp hc with hc | hc
      · exact numChar_ringChar (ratToDecChars_numChar hk1 hc)
      · rcases List.mem_cons.mp hc with rfl | hc
        · decide
        · exact numChar_ringChar (ratToDecChars_numChar hk2 hc)
    cases rest with
    | nil => exact htok
    | cons p2 rest2 =>
      intro c hc
      have hj : joinCoords (p :: p2 :: rest2) =
          (ratToDecChars p.1 ++ ' ' :: ratToDecChars p.2) ++
            ',' :: (' ' :: joinCoords (p2 :: rest2)) := rfl
      rw [hj] at hc
      rcases List.mem_append.mp hc with hc | hc
      · exact htok c hc
      · rcases List.mem_cons.mp hc with rfl | hc
        · decide
        · rcases List.mem_cons.mp hc with rfl | hc
          · decide
          · exact ih (fun x hx => hdec x (List.mem_cons_of_mem p hx)) c hc

/-- C2: serializing any (lat, lng) ring with at least 3 vertices — written
lng-first into the GeoJSON structure, which is what `convertToWKT` emits into
the WKT text — and parsing the result with `parseWKTPolygon` yields the ring
again exactly: the parser re-swaps the serializer's (lng, lat) text order
back to in-memory (lat, lng) order.  Coordinates range over the exact-ℚ
image of JS doubles (denominators of the form `2^a·5^b`, i.e. finite
decimals), where the round-trip is exact rather than merely within
floating-point tolerance. -/
theorem convertToWKT_parseWKT_roundtrip (ring : List (ℚ × ℚ))
    (h3 : 3 ≤ ring.length)
    (hdec : ∀ p ∈ ring, (decExp p.1.den).isSome ∧ (decExp p.2.den).isSome) :
    ∃ wkt : String,
      convertToWKT ⟨some [⟨some ⟨"Polygon", some [ring.map Prod.swap]⟩⟩]⟩ =
        some wkt ∧
      parseWKTPolygon wkt = some ring := by
  have hcne : ring.map Prod.swap ≠ [] := by
    intro h
    rw [List.map_eq_nil_iff] at h
    subst h
    simp at h3
  have hcdec : ∀ p ∈ ring.map Prod.swap,
      (decExp p.1.den).isSome ∧ (decExp p.2.den).isSome := by
    intro p hp
    obtain ⟨p', hp', rfl⟩ := List.mem_map.mp hp
    exact ⟨(hdec p' hp').2, (hdec p' hp').1⟩
  refine ⟨wktOfRing (ring.map Prod.swap), rfl, ?_⟩
  have hJchars := joinCoords_ringChar (ring.map Prod.swap) hcdec
  have hP : ∀ c ∈ ['S', 'R', 'I', 'D', '=', '4', '3', '2', '6', ';',
      'P', 'O', 'L', 'Y', 'G', 'O', 'N', ' ', '(', '('], c.toUpper = c := by
    decide
  have hE : ∀ c ∈ [')', ')'], c.toUpper = c := by decide
  have hupfix : ∀ c ∈ ('S' :: 'R' :: 'I' :: 'D' :: '=' :: '4' :: '3' :: '2' ::
      '6' :: ';' :: 'P' :: 'O' :: 'L' :: 'Y' :: 'G' :: 'O' :: 'N' :: ' ' ::
      '(' :: '(' :: []) ++ joinCoords (ring.map Prod.swap) ++ [')', ')'],
      c.toUpper = c := by
    intro c hc
    rcases List.mem_append.mp hc with hc | hc
    · rcases List.mem_append.mp hc with hc | hc
      · exact hP c hc
      · exact ringChar_toUpper (hJchars c hc)
    · exact hE c hc
  have hup := jsToUpper_eq_self hupfix
  have hcap : captureUntilParens
      (joinCoords (ring.map Prod.swap) ++ [')', ')']) =
      some (joinCoords (ring.map Prod.swap)) := by
    rw [captureUntilParens_append _ _
      (fun c hc => ⟨ringChar_ne_rparen (hJchars c hc),
        ringChar_dotMatches (hJchars c hc)⟩), captureUntilParens_close]
    simp
  have hAt : polygonMatchAt
      ('P' :: 'O' :: 'L' :: 'Y' :: 'G' :: 'O' :: 'N' :: ' ' :: '(' :: '(' ::
        (joinCoords (ring.map Prod.swap) ++ [')', ')'])) =
      captureUntilParens (joinCoords (ring.map Prod.swap) ++ [')', ')']) :=
    rfl
  have hmatch : polygonMatch
      ('P' :: 'O' :: 'L' :: 'Y' :: 'G' :: 'O' :: 'N' :: ' ' :: '(' :: '(' ::
        (joinCoords (ring.map Prod.swap) ++ [')', ')'])) =
      some (joinCoords (ring.map Prod.swap)) :=
    polygonMatch_of_matchAt (hAt.trans hcap)
  have hstrip : stripSRID (('S' :: 'R' :: 'I' :: 'D' :: '=' :: '4' :: '3' ::
      '2' :: '6' :: ';' :: 'P' :: 'O' :: 'L' :: 'Y' :: 'G' :: 'O' :: 'N' ::
      ' ' :: '(' :: '(' :: []) ++ joinCoords (ring.map Prod.swap) ++
      [')', ')']) =
      'P' :: 'O' :: 'L' :: 'Y' :: 'G' :: 'O' :: 'N' :: ' ' :: '(' :: '(' ::
        (joinCoords (ring.map Prod.swap) ++ [')', ')']) := rfl
  simp only [parseWKTPolygon]
  have htl : (wktOfRing (ring.map Prod.swap)).toList =
      ('S' :: 'R' :: 'I' :: 'D' :: '=' :: '4' :: '3' :: '2' :: '6' :: ';' ::
        'P' :: 'O' :: 'L' :: 'Y' :: 'G' :: 'O' :: 'N' :: ' ' :: '(' :: '(' ::
        []) ++ joinCoords (ring.map Prod.swap) ++ [')', ')'] := rfl
  rw [htl, hup, hstrip, hmatch]
  show mapOrNone parseCoordPair
      (splitOnComma (joinCoords (List.map Prod.swap ring))) = some ring
  rw [mapOrNone_joinCoords _ hcne hcdec]
  simp [List.map_map, Function.comp_def]

/-- Witness for C2 at the spec's example ring
`[[20,10],[40,30],[20,10]]` (lat, lng). -/
theorem convertToWKT_parseWKT_roundtrip_witness :
    (3 ≤ ([((20 : ℚ), (10 : ℚ)), (40, 30), (20, 10)] :
        List (ℚ × ℚ)).length) ∧
    ∃ wkt : String,
      convertToWKT
        ⟨some [⟨some ⟨"Polygon",
          some [([((20 : ℚ), (10 : ℚ)), (40, 30), (20, 10)] :
            List (ℚ × ℚ)).map Prod.swap]⟩⟩]⟩ = some wkt ∧
      parseWKTPolygon wkt =
        some [((20 : ℚ), (10 : ℚ)), (40, 30), (20, 10)] := by
  refine ⟨by decide, ?_⟩
  exact convertToWKT_parseWKT_roundtrip _ (by decide) (by decide)

end WebAnalizer
